import Mathlib

/-!
Verification of the Personalized Calibration & Classification Engine of the
Real-Time Posture Estimation and Correction System.

The development shallowly embeds the core logic that is duplicated between
`Code/Model/lightGBM/lightGBM.py` and
`Code/app/src/main/python/personalized_posture_detector.py`:

* parsed JSON payloads are modelled by the inductive type `JVal`
  (Python dicts become association lists; the source dicts never carry
  duplicate keys, and the first binding is authoritative);
* Python floats are modelled by rationals; the result of Python
  `float(...)` applied to a string is abstracted by a conversion function
  `sf : String -> Option Rat` that every payload operation takes as a
  parameter (the sources only branch on whether the conversion succeeds
  and on the produced value);
* Python `None` and JSON `null` are both modelled by `JVal.null`
  (`dict.get` of a missing key is modelled by `Option`);
* keypoint names that are not strings are dropped when building lookup
  maps (in the sources such names can never match a canonical part name,
  and offset lookups keyed by them always miss);
* fallible operations return `Option`, and the lightGBM direct angle
  extraction, whose `float(...)` calls are not guarded by try/except in
  the source, returns `Except String`;
* the final trigonometric angle computation (`calculate_angle`) is
  modelled over the reals with `Real.arccos`; everything before it is
  executable, so the extraction pipeline is split into an executable core
  that produces either directly-stored angles or the chosen coordinates,
  followed by the noncomputable trigonometric finish.

Since the embedding is purely functional, operations that the sources
perform on a deep copy of their input (for example
`apply_keypoint_offsets_to_payload`) leave the input unchanged by
construction.
-/

namespace Posture

/-- Parsed JSON values, as consumed by the Python sources. -/
inductive JVal where
  | num (q : ℚ)
  | str (s : String)
  | bool (b : Bool)
  | null
  | arr (items : List JVal)
  | obj (fields : List (String × JVal))

/-- Lookup in an association list modelling a Python dict
(`d.get(k)`, returning `none` for a missing key). -/
def alistGet {α : Type} (l : List (String × α)) (k : String) : Option α :=
  match l with
  | [] => none
  | (k', v) :: rest => if k' = k then some v else alistGet rest k

/-- Field lookup on a `JVal` (`none` when the value is not an object or
the key is missing). -/
def JVal.getKey (v : JVal) (k : String) : Option JVal :=
  match v with
  | .obj fs => alistGet fs k
  | _ => none

/-- Python truthiness of a parsed JSON value. -/
def JVal.truthy : JVal → Bool
  | .num q => q != 0
  | .str s => s != ""
  | .bool b => b
  | .null => false
  | .arr l => !l.isEmpty
  | .obj l => !l.isEmpty

/-- Result of Python `float(v)` on a parsed JSON value: numbers convert to
themselves, strings convert according to the abstract string conversion
`sf`, booleans convert to 0/1, and everything else
(`None`, lists, dicts) raises, modelled as `none`. -/
def pyFloat (sf : String → Option ℚ) : JVal → Option ℚ
  | .num q => some q
  | .str s => sf s
  | .bool b => some (if b then 1 else 0)
  | _ => none

/-- Model of `entry.get(k1) or entry.get(k2) or ...`: the first value that
is present and truthy (the chain yields the last falsy candidate
otherwise, which every caller then treats the same as an absent value). -/
def firstTruthy (fs : List (String × JVal)) : List String → Option JVal
  | [] => none
  | k :: ks =>
    match alistGet fs k with
    | some v => if v.truthy then some v else firstTruthy fs ks
    | none => firstTruthy fs ks

/-- Restricts a resolved keypoint name to strings; non-string names are
dropped (in the sources they can never match a canonical part name, and
offset lookups keyed by them always miss). -/
def asStringName : Option JVal → Option String
  | some (.str s) => some s
  | _ => none

/-- Model of the chain `entry.get(k, position.get(k))` used by
`_normalise_keypoints`: the value of the first present key, else `null`
(Python `None`). -/
def presGet (fs : List (String × JVal)) (k : String) (fallback : List (String × JVal)) : JVal :=
  match alistGet fs k with
  | some v => v
  | none =>
    match alistGet fallback k with
    | some v => v
    | none => .null

/-- Model of nested presence-defaulting `entry.get(k1, entry.get(k2))`:
value of the first present key, else the supplied default. -/
def presChain (fs : List (String × JVal)) (ks : List String) (dflt : JVal) : JVal :=
  match ks with
  | [] => dflt
  | k :: rest =>
    match alistGet fs k with
    | some v => v
    | none => presChain fs rest dflt

/-- The `position` sub-object of a keypoint entry when it is a dict, else
the empty dict (`entry.get('position') if isinstance(..., dict) else {}`). -/
def positionFields (fs : List (String × JVal)) : List (String × JVal) :=
  match alistGet fs "position" with
  | some (.obj pf) => pf
  | _ => []

/-- Canonical keypoint entry built by the list branch of
`_normalise_keypoints` from a per-part object. -/
def normalisedListEntry (fs : List (String × JVal)) : List (String × JVal) :=
  let pos := positionFields fs
  [ ("x", presGet fs "x" pos),
    ("y", presGet fs "y" pos),
    ("confidence", presChain fs ["confidence", "score", "probability"] .null),
    ("visible", presChain fs ["visible", "is_visible"] (.bool true)) ]

/-- Dict branch of `_normalise_keypoints`: part name to sub-object or to a
3+-element `[x, y, confidence, ...]` sequence. -/
def normDict : List (String × JVal) → List (String × JVal)
  | [] => []
  | (label, v) :: rest =>
    match v with
    | .obj f => (label, .obj f) :: normDict rest
    | .arr (x :: y :: c :: _) =>
      (label, .obj [("x", x), ("y", y), ("confidence", c)]) :: normDict rest
    | _ => normDict rest

/-- List branch of `_normalise_keypoints`: per-part objects carrying their
name under `part_name`/`name`/`part`/`id`; entries without a resolvable
name are dropped silently. -/
def normList : List JVal → List (String × JVal)
  | [] => []
  | .obj fs :: rest =>
    match asStringName (firstTruthy fs ["part_name", "name", "part", "id"]) with
    | some nm => (nm, .obj (normalisedListEntry fs)) :: normList rest
    | none => normList rest
  | _ :: rest => normList rest

/-- Model of `_normalise_keypoints` (identical in both sources). -/
def normaliseKeypoints : JVal → List (String × JVal)
  | .obj fs => normDict fs
  | .arr es => normList es
  | _ => []

/-- The three candidate keypoint container field names, in resolution
order. -/
def candidateKeys : List String := ["keypoints", "pose_keypoints", "pose_keypoints_2d"]

/-- Candidate-key loop of `_build_keypoints_lookup`: normalise the first
present candidate field whose normalisation is non-empty. -/
def tryCandidates (fs : List (String × JVal)) : List String → List (String × JVal)
  | [] => []
  | k :: ks =>
    match alistGet fs k with
    | some v =>
      let l := normaliseKeypoints v
      if l.isEmpty then tryCandidates fs ks else l
    | none => tryCandidates fs ks

/-- Model of `payload.get('persons') or payload.get('people')`. -/
def personsValue (fs : List (String × JVal)) : JVal :=
  match alistGet fs "persons" with
  | some v => if v.truthy then v else (alistGet fs "people").getD .null
  | none => (alistGet fs "people").getD .null

/-- Lookup contributed by the first person of a non-empty
`persons`/`people` list. -/
def personsLookup (fs : List (String × JVal)) : List (String × JVal) :=
  match personsValue fs with
  | .arr (p0 :: _) =>
    match p0 with
    | .obj pfs => tryCandidates pfs candidateKeys
    | _ => []
  | _ => []

/-- Model of `_build_keypoints_lookup` (identical in both sources): try
the first person of a non-empty `persons`/`people` list, then the payload
root. -/
def buildKeypointsLookup (payload : JVal) : List (String × JVal) :=
  match payload with
  | .obj fs =>
    if (personsLookup fs).isEmpty then tryCandidates fs candidateKeys else personsLookup fs
  | _ => []

/-- Null-skipping lookup chain of `_confidence`
(`conf = p.get('confidence'); if conf is None: conf = p.get('score'); ...`). -/
def nnGet (fs : List (String × JVal)) : List String → Option JVal
  | [] => none
  | k :: ks =>
    match alistGet fs k with
    | some .null => nnGet fs ks
    | some v => some v
    | none => nnGet fs ks

/-- Model of `_confidence` (identical in both sources): 0 for non-dicts,
0 when `visible` is literally `false`, otherwise the float conversion of
the first non-null of `confidence`/`score`/`probability`, with 0 when the
conversion fails or nothing is found. -/
def confOf (sf : String → Option ℚ) : JVal → ℚ
  | .obj fs =>
    match alistGet fs "visible" with
    | some (.bool false) => 0
    | _ =>
      match nnGet fs ["confidence", "score", "probability"] with
      | some v => (pyFloat sf v).getD 0
      | none => 0
  | _ => 0

/-- Confidence of an optional lookup result (`_confidence` applied to
`lookup.get(part)`). -/
def confValue (sf : String → Option ℚ) : Option JVal → ℚ
  | some v => confOf sf v
  | none => 0

/-- An angle triple as carried by the sources: neck, back and legs angles
in degrees. -/
structure AngleTriple where
  neck : ℚ
  back : ℚ
  legs : ℚ
deriving DecidableEq

/-- The five keypoint coordinates selected by the geometric path of
`get_angles_from_payload`, right before `calculate_angle` is applied. -/
structure GeomCoords where
  ear : ℚ × ℚ
  shoulder : ℚ × ℚ
  hip : ℚ × ℚ
  knee : ℚ × ℚ
  ankle : ℚ × ℚ
deriving DecidableEq

/-- The confidence threshold `CONFIDENCE_THRESHOLD = 0.75`. -/
def confidenceThreshold : ℚ := 0.75

/-- Coordinate read of the geometric path: `float(point.get(axis))`, with
the try/except modelled by `Option`. -/
def coordRead (sf : String → Option ℚ) (point : JVal) (axis : String) : Option ℚ :=
  match point.getKey axis with
  | some v => pyFloat sf v
  | none => none

/-- One iteration of the required-part loop of the geometric path: reject
the part when its confidence is below the threshold or either coordinate
does not convert to a float. -/
def requirePart (sf : String → Option ℚ) (lookup : List (String × JVal)) (partKey : String) :
    Option (ℚ × ℚ) :=
  let pt := alistGet lookup partKey
  if confValue sf pt < confidenceThreshold then none
  else
    match pt with
    | some e =>
      match coordRead sf e "x", coordRead sf e "y" with
      | some x, some y => some (x, y)
      | _, _ => none
    | none => none

/-- Side selection of the geometric path: left when the left-ear
confidence is at least the right-ear confidence, else right. -/
def chooseSide (sf : String → Option ℚ) (lookup : List (String × JVal)) : String :=
  if confValue sf (alistGet lookup "right_ear") ≤ confValue sf (alistGet lookup "left_ear")
  then "left" else "right"

/-- Geometric path of `get_angles_from_payload` (identical in both
sources), up to but not including the trigonometric angle computation:
choose a side by ear confidence, then require ear, shoulder, hip, knee
and ankle of that side. -/
def extractGeomCoords (sf : String → Option ℚ) (lookup : List (String × JVal)) :
    Option GeomCoords :=
  let side := chooseSide sf lookup
  match requirePart sf lookup (side ++ "_ear"),
        requirePart sf lookup (side ++ "_shoulder"),
        requirePart sf lookup (side ++ "_hip"),
        requirePart sf lookup (side ++ "_knee"),
        requirePart sf lookup (side ++ "_ankle") with
  | some e, some s, some h, some k, some a => some ⟨e, s, h, k, a⟩
  | _, _, _, _, _ => none

/-- Direct angle extraction `_extract_angles` of the Android detector:
requires the three keys and returns `none` (instead of raising) when a
float conversion fails. -/
def extractTripleDet (sf : String → Option ℚ) : Option JVal → Option AngleTriple
  | some (.obj fs) =>
    match alistGet fs "neck", alistGet fs "back", alistGet fs "legs" with
    | some vn, some vb, some vl =>
      match pyFloat sf vn, pyFloat sf vb, pyFloat sf vl with
      | some n, some b, some l => some ⟨n, b, l⟩
      | _, _, _ => none
    | _, _, _ => none
  | _ => none

/-- Direct angle extraction `_extract_angles` of the lightGBM script: the
float conversions are not guarded, so a present but non-convertible field
raises (modelled by `Except.error`). -/
def extractTripleLGBM (sf : String → Option ℚ) : Option JVal → Except String (Option AngleTriple)
  | some (.obj fs) =>
    match alistGet fs "neck", alistGet fs "back", alistGet fs "legs" with
    | some vn, some vb, some vl =>
      match pyFloat sf vn with
      | none => .error "float() raised on the neck field"
      | some n =>
        match pyFloat sf vb with
        | none => .error "float() raised on the back field"
        | some b =>
          match pyFloat sf vl with
          | none => .error "float() raised on the legs field"
          | some l => .ok (some ⟨n, b, l⟩)
    | _, _, _ => .ok none
  | _ => .ok none

/-- Result of the executable part of `get_angles_from_payload`: either
directly-stored angles or the coordinates selected by the geometric
path. -/
abbrev DirectOrCoords := AngleTriple ⊕ GeomCoords

/-- Geometric tail of `get_angles_from_payload` (identical in both
sources): build the keypoint lookup, fail on an empty lookup, then run
the geometric path. -/
def geomTail (sf : String → Option ℚ) (payload : JVal) : Option DirectOrCoords :=
  let lookup := buildKeypointsLookup payload
  if lookup.isEmpty then none
  else (extractGeomCoords sf lookup).map .inr

/-- Executable core of the Android detector's `get_angles_from_payload`:
direct keys `adjusted_angles`, `personalized_angles`, `angles`,
`reference_angles`, then the payload root, then the geometric path. -/
def getAnglesCoreDet (sf : String → Option ℚ) (payload : JVal) : Option DirectOrCoords :=
  let direct :=
    match payload with
    | .obj fs =>
      match extractTripleDet sf (alistGet fs "adjusted_angles") with
      | some t => some t
      | none =>
        match extractTripleDet sf (alistGet fs "personalized_angles") with
        | some t => some t
        | none =>
          match extractTripleDet sf (alistGet fs "angles") with
          | some t => some t
          | none =>
            match extractTripleDet sf (alistGet fs "reference_angles") with
            | some t => some t
            | none => extractTripleDet sf (some payload)
    | _ => none
  match direct with
  | some t => some (.inl t)
  | none => geomTail sf payload

/-- Executable core of the lightGBM script's `get_angles_from_payload`:
direct keys `adjusted_angles`, `personalized_angles`, `angles` (there is
no `reference_angles` key in this source), then the payload root, then
the geometric path; unguarded float conversions propagate as errors. -/
def getAnglesCoreLGBM (sf : String → Option ℚ) (payload : JVal) :
    Except String (Option DirectOrCoords) :=
  match payload with
  | .obj fs =>
    match extractTripleLGBM sf (alistGet fs "adjusted_angles") with
    | .error e => .error e
    | .ok (some t) => .ok (some (.inl t))
    | .ok none =>
      match extractTripleLGBM sf (alistGet fs "personalized_angles") with
      | .error e => .error e
      | .ok (some t) => .ok (some (.inl t))
      | .ok none =>
        match extractTripleLGBM sf (alistGet fs "angles") with
        | .error e => .error e
        | .ok (some t) => .ok (some (.inl t))
        | .ok none =>
          match extractTripleLGBM sf (some payload) with
          | .error e => .error e
          | .ok (some t) => .ok (some (.inl t))
          | .ok none => .ok (geomTail sf payload)
  | _ => .ok (geomTail sf payload)

/-- Angle triple over the reals, as produced by the trigonometric path. -/
structure RAngleTriple where
  neck : ℝ
  back : ℝ
  legs : ℝ

/-- Model of `np.clip(v, -1.0, 1.0)`. -/
noncomputable def clipUnit (x : ℝ) : ℝ := max (-1) (min 1 x)

/-- Model of `calculate_angle(a, b, c)` (identical in both sources):
`degrees(arccos(clip(dot(BA, BC) / (|BA| * |BC| + 1e-6), -1, 1)))`. -/
noncomputable def calculate_angle (a b c : ℝ × ℝ) : ℝ :=
  let ba : ℝ × ℝ := (a.1 - b.1, a.2 - b.2)
  let bc : ℝ × ℝ := (c.1 - b.1, c.2 - b.2)
  let dotProduct := ba.1 * bc.1 + ba.2 * bc.2
  let magBa := Real.sqrt (ba.1 ^ 2 + ba.2 ^ 2)
  let magBc := Real.sqrt (bc.1 ^ 2 + bc.2 ^ 2)
  let cosine := clipUnit (dotProduct / (magBa * magBc + 1 / 1000000))
  Real.arccos cosine * (180 / Real.pi)

/-- Coercion of a rational coordinate pair to the reals. -/
def qPoint (p : ℚ × ℚ) : ℝ × ℝ := ((p.1 : ℝ), (p.2 : ℝ))

/-- Trigonometric finish of `get_angles_from_payload`: directly-stored
angles pass through, selected coordinates go through `calculate_angle`
with neck = angle(hip, shoulder, ear), back = angle(knee, hip, shoulder),
legs = angle(ankle, knee, hip). -/
noncomputable def finishAngles : DirectOrCoords → RAngleTriple
  | .inl t => ⟨(t.neck : ℝ), (t.back : ℝ), (t.legs : ℝ)⟩
  | .inr g =>
    ⟨calculate_angle (qPoint g.hip) (qPoint g.shoulder) (qPoint g.ear),
     calculate_angle (qPoint g.knee) (qPoint g.hip) (qPoint g.shoulder),
     calculate_angle (qPoint g.ankle) (qPoint g.knee) (qPoint g.hip)⟩

/-- The Android detector's `get_angles_from_payload`. -/
noncomputable def get_angles_from_payload_det (sf : String → Option ℚ) (payload : JVal) :
    Option RAngleTriple :=
  (getAnglesCoreDet sf payload).map finishAngles

/-- The lightGBM script's `get_angles_from_payload`. -/
noncomputable def get_angles_from_payload_lgbm (sf : String → Option ℚ) (payload : JVal) :
    Except String (Option RAngleTriple) :=
  (getAnglesCoreLGBM sf payload).map (Option.map finishAngles)

/-- Keypoint coordinate offsets, part name to `(dx, dy)`, as produced by
`compute_keypoint_coordinate_offsets`. -/
abbrev CoordOffsets := List (String × (ℚ × ℚ))

/-- Keypoint coordinate maps, part name to `(x, y)`, as produced by
`extract_keypoint_coordinates_from_payload`. -/
abbrev CoordMap := List (String × (ℚ × ℚ))

/-- Model of `compute_keypoint_coordinate_offsets` (identical in both
sources): empty when either map is empty, otherwise
`personal[part] - base[part]` for every part present in both maps. -/
def compute_keypoint_coordinate_offsets (base personal : CoordMap) : CoordOffsets :=
  if base.isEmpty || personal.isEmpty then []
  else
    base.filterMap fun kv =>
      match alistGet personal kv.1 with
      | some pp => some (kv.1, (pp.1 - kv.2.1, pp.2 - kv.2.2))
      | none => none

/-- Shift of a single coordinate value inside `_apply_delta`: `None` and
values whose float conversion fails are left untouched, numeric values
are replaced by their shifted float. -/
def shiftVal (sf : String → Option ℚ) (v : JVal) (d : ℚ) : JVal :=
  match v with
  | .null => .null
  | _ =>
    match pyFloat sf v with
    | some q => .num (q + d)
    | none => v

/-- One binding of a coordinate-carrying object: `x` is shifted by `dx`,
`y` by `dy`, all other bindings are untouched. -/
def shiftCoordField (sf : String → Option ℚ) (d : ℚ × ℚ) (kv : String × JVal) :
    String × JVal :=
  if kv.1 = "x" then (kv.1, shiftVal sf kv.2 d.1)
  else if kv.1 = "y" then (kv.1, shiftVal sf kv.2 d.2)
  else kv

/-- Shift of the nested `position` object of a keypoint entry
(non-dict `position` values are left untouched). -/
def shiftPositionObj (sf : String → Option ℚ) (d : ℚ × ℚ) (v : JVal) : JVal :=
  match v with
  | .obj pf => .obj (pf.map (shiftCoordField sf d))
  | _ => v

/-- One binding of a keypoint entry inside `_apply_delta`: `x`/`y` are
shifted, the `position` sub-object is shifted inside, everything else is
untouched. -/
def deltaField (sf : String → Option ℚ) (d : ℚ × ℚ) (kv : String × JVal) : String × JVal :=
  if kv.1 = "x" then (kv.1, shiftVal sf kv.2 d.1)
  else if kv.1 = "y" then (kv.1, shiftVal sf kv.2 d.2)
  else if kv.1 = "position" then (kv.1, shiftPositionObj sf d kv.2)
  else kv

/-- Shift of the `x`/`y` fields of a keypoint entry or of its nested
`position` object, as performed by `_apply_delta` for a defined offset. -/
def applyDeltaFields (sf : String → Option ℚ) (fs : List (String × JVal)) (d : ℚ × ℚ) :
    List (String × JVal) :=
  fs.map (deltaField sf d)

/-- Shift of a sequence-shaped keypoint entry: the first two elements are
shifted together, and the entry is left untouched when either float
conversion fails (`none`). -/
def shiftListEntry (sf : String → Option ℚ) (items : List JVal) (d : ℚ × ℚ) :
    Option (List JVal) :=
  match items with
  | x :: y :: rest =>
    match pyFloat sf x, pyFloat sf y with
    | some qx, some qy => some (.num (qx + d.1) :: .num (qy + d.2) :: rest)
    | _, _ => none
  | _ => none

/-- One element of a list-shaped keypoint container inside
`_process_keypoints`: a per-part object is shifted by its resolved
name's offset; nameless entries, non-dict entries and parts without a
defined offset are left untouched. -/
def processListElem (sf : String → Option ℚ) (Z : CoordOffsets) (e : JVal) : JVal :=
  match e with
  | .obj fs =>
    match asStringName (firstTruthy fs ["name", "part_name", "part", "id"]) with
    | some nm =>
      match alistGet Z nm with
      | some d => .obj (applyDeltaFields sf fs d)
      | none => e
    | none => e
  | _ => e

/-- One binding of a dict-shaped keypoint container inside
`_process_keypoints`: a per-part object is shifted field-wise, a
2+-element sequence is shifted all-or-nothing, anything else is left
untouched; parts without a defined offset are left untouched. -/
def processDictEntry (sf : String → Option ℚ) (Z : CoordOffsets) (kv : String × JVal) :
    String × JVal :=
  match kv.2 with
  | .obj efs =>
    match alistGet Z kv.1 with
    | some d => (kv.1, .obj (applyDeltaFields sf efs d))
    | none => kv
  | .arr items =>
    if 2 ≤ items.length then
      match alistGet Z kv.1 with
      | some d =>
        match shiftListEntry sf items d with
        | some items' => (kv.1, .arr items')
        | none => kv
      | none => kv
    else kv
  | _ => kv

/-- Model of `_process_keypoints`: shift every named entry of a keypoint
container (list of per-part objects, or dict of per-part objects or
2+-element sequences) by its part's offset; parts without a defined
offset are left untouched. -/
def processKeypoints (sf : String → Option ℚ) (Z : CoordOffsets) (container : JVal) : JVal :=
  match container with
  | .arr es => .arr (es.map (processListElem sf Z))
  | .obj fs => .obj (fs.map (processDictEntry sf Z))
  | _ => container

/-- Field name of the persons list that `_process_keypoints` is applied
to: the `persons` field when present and truthy, else the `people` field
when present. -/
def personsFieldName (fs : List (String × JVal)) : Option String :=
  match alistGet fs "persons" with
  | some v =>
    if v.truthy then some "persons"
    else if (alistGet fs "people").isSome then some "people" else none
  | none => if (alistGet fs "people").isSome then some "people" else none

/-- One binding of a payload or person object during offset application:
only the candidate keypoint container fields are processed. -/
def processContainerField (sf : String → Option ℚ) (Z : CoordOffsets) (kv : String × JVal) :
    String × JVal :=
  if candidateKeys.contains kv.1 then (kv.1, processKeypoints sf Z kv.2) else kv

/-- One person entry of the persons list during offset application. -/
def processPerson (sf : String → Option ℚ) (Z : CoordOffsets) (person : JVal) : JVal :=
  match person with
  | .obj pfs => .obj (pfs.map (processContainerField sf Z))
  | _ => person

/-- Per-person processing of `apply_keypoint_offsets_to_payload`: every
candidate container of every dict person is processed. -/
def processPersonsList (sf : String → Option ℚ) (Z : CoordOffsets) (v : JVal) : JVal :=
  match v with
  | .arr persons => .arr (persons.map (processPerson sf Z))
  | _ => v

/-- First stage of `apply_keypoint_offsets_to_payload`: process the
selected persons list field, when there is one. -/
def applyPersonsStage (sf : String → Option ℚ) (Z : CoordOffsets)
    (fs : List (String × JVal)) : List (String × JVal) :=
  match personsFieldName fs with
  | some pk => fs.map fun kv =>
      if kv.1 = pk then (kv.1, processPersonsList sf Z kv.2) else kv
  | none => fs

/-- Model of `apply_keypoint_offsets_to_payload` (identical in both
sources). The source operates on a deep copy, so the input payload is
unchanged; in this functional embedding that is immediate, and the
function returns the adjusted payload. Non-dict payloads and empty
offset maps return the payload as is. -/
def apply_keypoint_offsets_to_payload (sf : String → Option ℚ) (payload : JVal)
    (Z : CoordOffsets) : JVal :=
  match payload with
  | .obj fs =>
    if Z.isEmpty then .obj fs
    else .obj ((applyPersonsStage sf Z fs).map (processContainerField sf Z))
  | other => other

/-- Result of a successful `resolve_reference_angles`. -/
structure Resolution where
  base_angles : AngleTriple
  personal_angles : AngleTriple
  offsets : AngleTriple
deriving DecidableEq

/-- Model of `resolve_reference_angles` (identical contract in both
sources), abstracted over the two file-extraction results: `baseRes` is
the angle extraction of the baseline reference and `personalRes` the
angle extraction of the personal reference (`none` when the file is
absent, unreadable, or yields no angles). The whole resolution fails
when the baseline fails; a failed personal extraction falls back to the
baseline angles; offsets are personal minus base. -/
def resolve_reference_angles (baseRes personalRes : Option AngleTriple) : Option Resolution :=
  match baseRes with
  | none => none
  | some b =>
    let p :=
      match personalRes with
      | none => b
      | some p => p
    some ⟨b, p, ⟨p.neck - b.neck, p.back - b.back, p.legs - b.legs⟩⟩

/-- The three body regions iterated by the classifier and scorer. -/
inductive Region where
  | neck
  | back
  | legs
deriving DecidableEq

/-- The iteration order `['neck', 'back', 'legs']` used throughout the
sources. -/
def regionOrder : List Region := [.neck, .back, .legs]

/-- Axis accessor of an angle triple. -/
def AngleTriple.get (t : AngleTriple) : Region → ℚ
  | .neck => t.neck
  | .back => t.back
  | .legs => t.legs

/-- The tolerance table `POSTURE_TOLERANCE = {'neck': 10.0, 'back': 10.0,
'legs': 10.0}`. -/
def postureTolerance : Region → ℚ := fun _ => 10

/-- The weight table `ANGLE_WEIGHTS = {'neck': 1.0, 'back': 1.5,
'legs': 0.5}`. -/
def angleWeight : Region → ℚ
  | .neck => 1
  | .back => 1.5
  | .legs => 0.5

/-- The anatomical limit table `ANGLE_LIMITS`, lower bounds. -/
def angleLimitMin : Region → ℚ
  | .neck => 125.19
  | .back => 59.70
  | .legs => 86.13

/-- The anatomical limit table `ANGLE_LIMITS`, upper bounds. -/
def angleLimitMax : Region → ℚ
  | .neck => 178.45
  | .back => 145.25
  | .legs => 164.73

/-- The suggestion table `POSTURE_SUGGESTIONS`, low direction. -/
def lowSuggestionText : Region → String
  | .neck => "FIX: Your neck is bent too far forward. Tuck your chin in."
  | .back => "FIX: You are slouching. Sit up straight and engage your core."
  | .legs => "FIX: Your knees are too bent. Adjust your seating or footrest."

/-- The suggestion table `POSTURE_SUGGESTIONS`, high direction. -/
def highSuggestionText : Region → String
  | .neck => "FIX: Avoid tilting your head too far back."
  | .back => "FIX: You are leaning back too far. Bring your torso upright."
  | .legs => "FIX: Your legs are too extended. Place your feet flat on the floor."

/-- One per-region rule as built by `build_manual_rules`. -/
structure AxisRule where
  min : ℚ
  max : ℚ
  low_suggestion : String
  high_suggestion : String

/-- Rules for the three regions. -/
structure ManualRules where
  neck : AxisRule
  back : AxisRule
  legs : AxisRule

/-- Axis accessor of a rules table. -/
def ManualRules.get (r : ManualRules) : Region → AxisRule
  | .neck => r.neck
  | .back => r.back
  | .legs => r.legs

/-- Model of `build_manual_rules` (identical in both sources):
`personal_angles[region] - tolerance` to `personal_angles[region] +
tolerance` with the fixed suggestion texts. -/
def build_manual_rules (personal : AngleTriple) : ManualRules :=
  let mk : Region → AxisRule := fun r =>
    ⟨personal.get r - postureTolerance r, personal.get r + postureTolerance r,
     lowSuggestionText r, highSuggestionText r⟩
  ⟨mk .neck, mk .back, mk .legs⟩

/-- Per-axis GOOD/BAD state string of `classify_posture_state`:
`"GOOD" if rules[r]['min'] <= angles[r] <= rules[r]['max'] else "BAD"`. -/
def axisState (angles : AngleTriple) (rules : ManualRules) (r : Region) : String :=
  if (rules.get r).min ≤ angles.get r ∧ angles.get r ≤ (rules.get r).max then "GOOD" else "BAD"

/-- The fixed 8-entry label table of `classify_posture_state`. -/
def postureStatesTable : List ((String × String × String) × String) :=
  [ (("GOOD", "GOOD", "GOOD"), "Aligned Posture"),
    (("GOOD", "GOOD", "BAD"), "Legs Misalignment"),
    (("GOOD", "BAD", "GOOD"), "Back Misalignment"),
    (("GOOD", "BAD", "BAD"), "Back & Legs Misalignment"),
    (("BAD", "GOOD", "GOOD"), "Neck Misalignment"),
    (("BAD", "GOOD", "BAD"), "Neck & Legs Misalignment"),
    (("BAD", "BAD", "GOOD"), "Neck & Back Misalignment"),
    (("BAD", "BAD", "BAD"), "Full Body Misalignment") ]

/-- Model of `classify_posture_state` (identical in both sources): the
per-axis state tuple looked up in the fixed table, with the default
`"Unknown"` of `dict.get(state, "Unknown")`. -/
def classify_posture_state (angles : AngleTriple) (rules : ManualRules) : String :=
  let state := (axisState angles rules .neck, axisState angles rules .back,
                axisState angles rules .legs)
  ((postureStatesTable.find? fun kv => kv.1 == state).map Prod.snd).getD "Unknown"

/-- Model of `compute_manual_max_deviation` (identical in both sources):
for each axis, the squared distance to whichever anatomical limit is
farther from the personal angle, weighted and summed. -/
def compute_manual_max_deviation (personal : AngleTriple) : ℚ :=
  (regionOrder.map fun r =>
    let ideal := personal.get r
    let worstAngle :=
      if |angleLimitMax r - ideal| < |angleLimitMin r - ideal| then angleLimitMin r
      else angleLimitMax r
    let worstDiff := |worstAngle - ideal|
    angleWeight r * worstDiff ^ 2).sum

/-- The weighted squared deviation summed by `calculate_manual_score`. -/
def weightedDeviation (current personal : AngleTriple) : ℚ :=
  (regionOrder.map fun r => angleWeight r * (current.get r - personal.get r) ^ 2).sum

/-- Model of `calculate_manual_score` (identical in both sources): binary
100/0 against the 1e-6 threshold when `max_threshold <= 0`, otherwise
`100 * (1 - weighted / max_threshold)` clamped to [0, 100]. -/
def calculate_manual_score (current personal : AngleTriple) (maxThreshold : ℚ) : ℚ :=
  let weighted := weightedDeviation current personal
  if maxThreshold ≤ 0 then (if weighted ≤ 1 / 1000000 then 100 else 0)
  else max 0 (min 100 ((1 - weighted / maxThreshold) * 100))

/-- One analysis row of `run_manual_posture_check`. -/
structure DetailRow where
  region : String
  angle : ℚ
  status : String
  suggestion : String

/-- Region name strings used in the analysis rows. -/
def regionName : Region → String
  | .neck => "neck"
  | .back => "back"
  | .legs => "legs"

/-- One iteration of the analysis loop of `run_manual_posture_check`. -/
def analyzeRegion (current : AngleTriple) (rules : ManualRules) (r : Region) : DetailRow :=
  let angle := current.get r
  let rule := rules.get r
  if angle < rule.min then
    ⟨regionName r, angle, "INCORRECT (Too Bent/Forward)", rule.low_suggestion⟩
  else if rule.max < angle then
    ⟨regionName r, angle, "INCORRECT (Too Reclined/Extended)", rule.high_suggestion⟩
  else
    ⟨regionName r, angle, "GOOD", "No correction needed."⟩

/-- Result of `run_manual_posture_check`. -/
structure ManualSummary where
  label : String
  score : ℚ
  details : List DetailRow

/-- Model of `run_manual_posture_check` (identical in both sources). -/
def run_manual_posture_check (current personal : AngleTriple) : ManualSummary :=
  let rules := build_manual_rules personal
  let maxThreshold := compute_manual_max_deviation personal
  ⟨classify_posture_state current rules,
   calculate_manual_score current personal maxThreshold,
   regionOrder.map (analyzeRegion current rules)⟩

/-- C1: for every angle triple and every personal-angle triple, the rule
classifier marks an axis GOOD iff its angle lies in the closed interval
[personal - 10, personal + 10], and the (neck, back, legs) GOOD/BAD tuple
selects the label through the fixed 8-entry table; with personal angles
(150, 100, 120) and observed angles (135, 100, 120) the label is "Neck
Misalignment" and the neck status is "INCORRECT (Too Bent/Forward)". -/
theorem C1_rule_classifier_table_and_scenario :
    (∀ (current personal : AngleTriple) (r : Region),
      axisState current (build_manual_rules personal) r = "GOOD" ↔
        personal.get r - 10 ≤ current.get r ∧ current.get r ≤ personal.get r + 10) ∧
    (∀ current personal : AngleTriple,
      classify_posture_state current (build_manual_rules personal) =
        if personal.neck - 10 ≤ current.neck ∧ current.neck ≤ personal.neck + 10 then
          (if personal.back - 10 ≤ current.back ∧ current.back ≤ personal.back + 10 then
            (if personal.legs - 10 ≤ current.legs ∧ current.legs ≤ personal.legs + 10 then
              "Aligned Posture" else "Legs Misalignment")
          else
            (if personal.legs - 10 ≤ current.legs ∧ current.legs ≤ personal.legs + 10 then
              "Back Misalignment" else "Back & Legs Misalignment"))
        else
          (if personal.back - 10 ≤ current.back ∧ current.back ≤ personal.back + 10 then
            (if personal.legs - 10 ≤ current.legs ∧ current.legs ≤ personal.legs + 10 then
              "Neck Misalignment" else "Neck & Legs Misalignment")
          else
            (if personal.legs - 10 ≤ current.legs ∧ current.legs ≤ personal.legs + 10 then
              "Neck & Back Misalignment" else "Full Body Misalignment"))) ∧
    classify_posture_state ⟨135, 100, 120⟩ (build_manual_rules ⟨150, 100, 120⟩) =
      "Neck Misalignment" ∧
    (run_manual_posture_check ⟨135, 100, 120⟩ ⟨150, 100, 120⟩).details.map DetailRow.status =
      ["INCORRECT (Too Bent/Forward)", "GOOD", "GOOD"] := by
  refine ⟨?_, ?_, ?_, ?_⟩
  · intro current personal r
    cases r <;>
      simp [axisState, build_manual_rules, ManualRules.get, AngleTriple.get, postureTolerance]
  · intro current personal
    simp only [classify_posture_state, axisState, build_manual_rules, ManualRules.get,
      AngleTriple.get, postureTolerance]
    split_ifs with h1 h2 h3 h4 h5 h6 h7 <;> rfl
  · norm_num [classify_posture_state, axisState, build_manual_rules, ManualRules.get,
      AngleTriple.get, postureTolerance]
    rfl
  · norm_num [run_manual_posture_check, analyzeRegion, regionOrder, regionName,
      build_manual_rules, ManualRules.get, AngleTriple.get, postureTolerance,
      classify_posture_state, axisState, postureStatesTable]

/-- C2: with `max_threshold = compute_manual_max_deviation(personal)`,
the manual score lies in [0, 100] and equals exactly 100 when the
current angles equal the personal angles; with `max_threshold = 0` the
score is binary: 100 when the weighted squared deviation is within 1e-6,
else 0. -/
theorem C2_score_bounds_binary :
    ∀ current personal : AngleTriple,
      (0 ≤ calculate_manual_score current personal (compute_manual_max_deviation personal) ∧
        calculate_manual_score current personal (compute_manual_max_deviation personal) ≤ 100) ∧
      calculate_manual_score personal personal (compute_manual_max_deviation personal) = 100 ∧
      calculate_manual_score current personal 0 =
        (if weightedDeviation current personal ≤ 1 / 1000000 then 100 else 0) := by
  intro current personal
  refine ⟨⟨?_, ?_⟩, ?_, ?_⟩
  · simp only [calculate_manual_score]
    split_ifs with h h2
    · norm_num
    · norm_num
    · exact le_max_left 0 _
  · simp only [calculate_manual_score]
    split_ifs with h h2
    · norm_num
    · norm_num
    · exact max_le (by norm_num) (le_trans (min_le_left _ _) (by norm_num))
  · have hw : weightedDeviation personal personal = 0 := by
      simp [weightedDeviation, regionOrder]
    simp only [calculate_manual_score, hw]
    split_ifs with h h2
    · rfl
    · exact absurd (by norm_num : (0 : ℚ) ≤ 1 / 1000000) h2
    · norm_num
  · unfold calculate_manual_score
    norm_num

/-- C3: `resolve_reference_angles` fails iff the baseline extraction
fails; when the personal extraction fails, the personal angles fall back
to the baseline angles and the offsets are all zero; in every successful
resolution, offsets are personal minus base on each axis. -/
theorem C3_reference_resolution_contract :
    (∀ personalRes, resolve_reference_angles none personalRes = none) ∧
    (∀ (b : AngleTriple) (personalRes : Option AngleTriple),
      (resolve_reference_angles (some b) personalRes).isSome = true) ∧
    (∀ b : AngleTriple,
      resolve_reference_angles (some b) none = some ⟨b, b, ⟨0, 0, 0⟩⟩) ∧
    (∀ b p : AngleTriple,
      resolve_reference_angles (some b) (some p) =
        some ⟨b, p, ⟨p.neck - b.neck, p.back - b.back, p.legs - b.legs⟩⟩) := by
  refine ⟨fun _ => rfl, fun b pr => ?_, fun b => ?_, fun b p => rfl⟩
  · cases pr <;> rfl
  · simp [resolve_reference_angles]

/-- C10: `classify_posture_state` never returns "Unknown": for every
angle triple and every rules table carrying min and max for the three
axes, the GOOD/BAD state tuple always hits one of the eight table
entries. -/
theorem C10_classifier_never_unknown :
    ∀ (angles : AngleTriple) (rules : ManualRules),
      classify_posture_state angles rules ≠ "Unknown" := by
  intro angles rules
  simp only [classify_posture_state, axisState]
  split_ifs <;> decide

/-- The computed angle is nonnegative for all real points. -/
lemma calculate_angle_nonneg (a b c : ℝ × ℝ) : 0 ≤ calculate_angle a b c := by
  unfold calculate_angle
  have hpi : 0 < Real.pi := Real.pi_pos
  exact mul_nonneg (Real.arccos_nonneg _) (by positivity)

/-- The computed angle is at most 180 degrees for all real points. -/
lemma calculate_angle_le_180 (a b c : ℝ × ℝ) : calculate_angle a b c ≤ 180 := by
  unfold calculate_angle
  have hpi : 0 < Real.pi := Real.pi_pos
  have harc : Real.arccos (clipUnit
      (((a.1 - b.1) * (c.1 - b.1) + (a.2 - b.2) * (c.2 - b.2)) /
        (Real.sqrt ((a.1 - b.1) ^ 2 + (a.2 - b.2) ^ 2) *
          Real.sqrt ((c.1 - b.1) ^ 2 + (c.2 - b.2) ^ 2) + 1 / 1000000))) ≤ Real.pi :=
    Real.arccos_le_pi _
  calc Real.arccos _ * (180 / Real.pi) ≤ Real.pi * (180 / Real.pi) :=
        mul_le_mul_of_nonneg_right harc (by positivity)
    _ = 180 := by field_simp

/-- The computed angle is symmetric in its outer arguments. -/
lemma calculate_angle_symm (a b c : ℝ × ℝ) : calculate_angle a b c = calculate_angle c b a := by
  simp only [calculate_angle]
  have hdot : (a.1 - b.1) * (c.1 - b.1) + (a.2 - b.2) * (c.2 - b.2) =
      (c.1 - b.1) * (a.1 - b.1) + (c.2 - b.2) * (a.2 - b.2) := by ring
  have hmag : Real.sqrt ((a.1 - b.1) ^ 2 + (a.2 - b.2) ^ 2) *
      Real.sqrt ((c.1 - b.1) ^ 2 + (c.2 - b.2) ^ 2) =
      Real.sqrt ((c.1 - b.1) ^ 2 + (c.2 - b.2) ^ 2) *
      Real.sqrt ((a.1 - b.1) ^ 2 + (a.2 - b.2) ^ 2) := mul_comm _ _
  rw [hdot, hmag]

/-- C7: for all three 2D points with rational coordinates, the computed
angle using degrees(arccos(clip(dot / (norms + 1e-6), -1, 1))) lies in
[0, 180], and the angle is symmetric in its outer arguments. -/
theorem C7_angle_bounds_and_symmetry :
    ∀ a b c : ℚ × ℚ,
      0 ≤ calculate_angle (qPoint a) (qPoint b) (qPoint c) ∧
      calculate_angle (qPoint a) (qPoint b) (qPoint c) ≤ 180 ∧
      calculate_angle (qPoint a) (qPoint b) (qPoint c) =
        calculate_angle (qPoint c) (qPoint b) (qPoint a) := by
  intro a b c
  exact ⟨calculate_angle_nonneg _ _ _, calculate_angle_le_180 _ _ _,
    calculate_angle_symm _ _ _⟩

/-- A successful required part implies its confidence met the
threshold. -/
lemma requirePart_some_conf {sf : String → Option ℚ} {lookup : List (String × JVal)}
    {k : String} {p : ℚ × ℚ} (h : requirePart sf lookup k = some p) :
    confidenceThreshold ≤ confValue sf (alistGet lookup k) := by
  simp only [requirePart] at h
  split_ifs at h with hc
  exact not_lt.mp hc

/-- The ear-confidence scenario lookup: left-ear confidence 0.2,
right-ear confidence 0.9. -/
def earScenarioLookup : List (String × JVal) :=
  [("left_ear", .obj [("confidence", .num 0.2)]),
   ("right_ear", .obj [("confidence", .num 0.9)])]

/-- C6: in the geometric path, the left side is chosen iff left-ear
confidence is at least right-ear confidence; extraction succeeds only
when each of the chosen side's ear, shoulder, hip, knee, ankle keypoints
has confidence at least 0.75; visible=false forces confidence 0, and an
absent keypoint or an unparseable confidence counts as 0; left-ear 0.2
against right-ear 0.9 selects the right side. -/
theorem C6_geometric_side_selection_and_confidence_gate :
    ∀ (sf : String → Option ℚ) (lookup : List (String × JVal)),
      (chooseSide sf lookup = "left" ↔
        confValue sf (alistGet lookup "right_ear") ≤ confValue sf (alistGet lookup "left_ear")) ∧
      (chooseSide sf lookup = "left" ∨ chooseSide sf lookup = "right") ∧
      (∀ g, extractGeomCoords sf lookup = some g →
        confidenceThreshold ≤
            confValue sf (alistGet lookup (chooseSide sf lookup ++ "_ear")) ∧
        confidenceThreshold ≤
            confValue sf (alistGet lookup (chooseSide sf lookup ++ "_shoulder")) ∧
        confidenceThreshold ≤
            confValue sf (alistGet lookup (chooseSide sf lookup ++ "_hip")) ∧
        confidenceThreshold ≤
            confValue sf (alistGet lookup (chooseSide sf lookup ++ "_knee")) ∧
        confidenceThreshold ≤
            confValue sf (alistGet lookup (chooseSide sf lookup ++ "_ankle"))) ∧
      (∀ fs, alistGet fs "visible" = some (.bool false) → confOf sf (.obj fs) = 0) ∧
      confValue sf none = 0 ∧
      (∀ fs v, nnGet fs ["confidence", "score", "probability"] = some v →
        pyFloat sf v = none → confOf sf (.obj fs) = 0) ∧
      chooseSide sf earScenarioLookup = "right" := by
  intro sf lookup
  refine ⟨?_, ?_, ?_, ?_, rfl, ?_, ?_⟩
  · unfold chooseSide
    split_ifs with h <;> simp [h]
  · unfold chooseSide
    split_ifs with h
    · exact Or.inl rfl
    · exact Or.inr rfl
  · intro g hg
    simp only [extractGeomCoords] at hg
    rcases h1 : requirePart sf lookup (chooseSide sf lookup ++ "_ear") with _ | p1 <;>
      rw [h1] at hg
    · exact absurd hg (by simp)
    rcases h2 : requirePart sf lookup (chooseSide sf lookup ++ "_shoulder") with _ | p2 <;>
      rw [h2] at hg
    · exact absurd hg (by simp)
    rcases h3 : requirePart sf lookup (chooseSide sf lookup ++ "_hip") with _ | p3 <;>
      rw [h3] at hg
    · exact absurd hg (by simp)
    rcases h4 : requirePart sf lookup (chooseSide sf lookup ++ "_knee") with _ | p4 <;>
      rw [h4] at hg
    · exact absurd hg (by simp)
    rcases h5 : requirePart sf lookup (chooseSide sf lookup ++ "_ankle") with _ | p5 <;>
      rw [h5] at hg
    · exact absurd hg (by simp)
    exact ⟨requirePart_some_conf h1, requirePart_some_conf h2, requirePart_some_conf h3,
      requirePart_some_conf h4, requirePart_some_conf h5⟩
  · intro fs h
    simp only [confOf, h]
  · intro fs v h1 h2
    simp only [confOf]
    split
    · rfl
    · rw [h1]
      simp [h2]
  · with_unfolding_all rfl

/-- The trivial string conversion used to instantiate witnesses: every
string fails to convert. -/
def sfNone : String → Option ℚ := fun _ => none

/-- A lookup whose left-side parts are all present at confidence 0.9 with
numeric coordinates. -/
def fullLeftLookup : List (String × JVal) :=
  [("left_ear", .obj [("x", .num 10), ("y", .num 20), ("confidence", .num 0.9)]),
   ("left_shoulder", .obj [("x", .num 30), ("y", .num 40), ("confidence", .num 0.9)]),
   ("left_hip", .obj [("x", .num 50), ("y", .num 60), ("confidence", .num 0.9)]),
   ("left_knee", .obj [("x", .num 70), ("y", .num 80), ("confidence", .num 0.9)]),
   ("left_ankle", .obj [("x", .num 90), ("y", .num 100), ("confidence", .num 0.9)])]

/-- Witness for C6: a concrete lookup on which the geometric extraction
succeeds, so the theorem yields the confidence lower bound for the
chosen ear. -/
theorem C6_witness :
    confidenceThreshold ≤
      confValue sfNone (alistGet fullLeftLookup (chooseSide sfNone fullLeftLookup ++ "_ear")) := by
  have h := ((C6_geometric_side_selection_and_confidence_gate sfNone fullLeftLookup).2.2.1)
    ⟨(10, 20), (30, 40), (50, 60), (70, 80), (90, 100)⟩ (by with_unfolding_all rfl)
  exact h.1

/-- Direct extraction on an absent candidate is a silent miss (detector). -/
lemma extractTripleDet_none (sf : String → Option ℚ) : extractTripleDet sf none = none := rfl

/-- Direct extraction on an absent candidate is a silent miss (lightGBM). -/
lemma extractTripleLGBM_none (sf : String → Option ℚ) : extractTripleLGBM sf none = .ok none :=
  rfl

/-- When the detector's direct extraction succeeds, the lightGBM direct
extraction succeeds with the same triple (all three fields are present
and all three float conversions succeed). -/
lemma extractTriple_det_to_lgbm {sf : String → Option ℚ} {v : Option JVal} {t : AngleTriple}
    (h : extractTripleDet sf v = some t) : extractTripleLGBM sf v = .ok (some t) := by
  cases v with
  | none => exact absurd h (by simp [extractTripleDet])
  | some j =>
    cases j with
    | num q => exact absurd h (by simp [extractTripleDet])
    | str s => exact absurd h (by simp [extractTripleDet])
    | bool b => exact absurd h (by simp [extractTripleDet])
    | null => exact absurd h (by simp [extractTripleDet])
    | arr l => exact absurd h (by simp [extractTripleDet])
    | obj fs =>
      cases hn : alistGet fs "neck" with
      | none => simp [extractTripleDet, hn] at h
      | some vn =>
        cases hb : alistGet fs "back" with
        | none => simp [extractTripleDet, hn, hb] at h
        | some vb =>
          cases hl : alistGet fs "legs" with
          | none => simp [extractTripleDet, hn, hb, hl] at h
          | some vl =>
            cases hfn : pyFloat sf vn with
            | none => simp [extractTripleDet, hn, hb, hl, hfn] at h
            | some n =>
              cases hfb : pyFloat sf vb with
              | none => simp [extractTripleDet, hn, hb, hl, hfn, hfb] at h
              | some b =>
                cases hfl : pyFloat sf vl with
                | none => simp [extractTripleDet, hn, hb, hl, hfn, hfb, hfl] at h
                | some l =>
                  simp only [extractTripleDet, hn, hb, hl, hfn, hfb, hfl,
                    Option.some.injEq] at h
                  simp only [extractTripleLGBM, hn, hb, hl, hfn, hfb, hfl]
                  rw [h]

/-- C4 amended: a payload whose `adjusted_angles` sub-object extracts an
angle triple yields it directly in both implementations; a payload whose
only direct source is `angles` yields it in both implementations; a
payload whose only direct source is `reference_angles` yields it in the
Android detector (the lightGBM implementation does not consult
`reference_angles`). -/
theorem C4_direct_path_keys :
    ∀ (sf : String → Option ℚ) (fs : List (String × JVal)) (sub : JVal) (t : AngleTriple),
      (alistGet fs "adjusted_angles" = some sub → extractTripleDet sf (some sub) = some t →
        getAnglesCoreDet sf (.obj fs) = some (.inl t) ∧
        getAnglesCoreLGBM sf (.obj fs) = .ok (some (.inl t))) ∧
      (alistGet fs "adjusted_angles" = none → alistGet fs "personalized_angles" = none →
        alistGet fs "angles" = some sub → extractTripleDet sf (some sub) = some t →
        getAnglesCoreDet sf (.obj fs) = some (.inl t) ∧
        getAnglesCoreLGBM sf (.obj fs) = .ok (some (.inl t))) ∧
      (alistGet fs "adjusted_angles" = none → alistGet fs "personalized_angles" = none →
        alistGet fs "angles" = none → alistGet fs "reference_angles" = some sub →
        extractTripleDet sf (some sub) = some t →
        getAnglesCoreDet sf (.obj fs) = some (.inl t)) := by
  intro sf fs sub t
  refine ⟨?_, ?_, ?_⟩
  · intro hget hext
    constructor
    · simp only [getAnglesCoreDet, hget, hext]
    · simp only [getAnglesCoreLGBM, hget, extractTriple_det_to_lgbm hext]
  · intro h1 h2 hget hext
    constructor
    · simp only [getAnglesCoreDet, h1, h2, hget, extractTripleDet_none, hext]
    · simp only [getAnglesCoreLGBM, h1, h2, hget, extractTripleLGBM_none,
        extractTriple_det_to_lgbm hext]
  · intro h1 h2 h3 hget hext
    simp only [getAnglesCoreDet, h1, h2, h3, hget, extractTripleDet_none, hext]

/-- The payload whose only angle source is a `reference_angles`
sub-object, used to separate the two implementations. -/
def referenceOnlyPayload : JVal :=
  .obj [("reference_angles",
    .obj [("neck", .num 150), ("back", .num 100), ("legs", .num 120)])]

/-- Counterexample for C4 as stated: the lightGBM
`get_angles_from_payload` does not consult `reference_angles`; on a
payload whose only angle source is a `reference_angles` sub-object with
numeric fields it returns the unavailable sentinel instead of the
sub-object's angles. -/
theorem C4_counterexample_lgbm_ignores_reference_angles :
    getAnglesCoreLGBM sfNone referenceOnlyPayload = .ok none ∧
    get_angles_from_payload_lgbm sfNone referenceOnlyPayload = .ok none := by
  constructor
  · rfl
  · rfl

/-- Witness for C4: the Android detector does return the
`reference_angles` triple on the same payload. -/
theorem C4_witness :
    getAnglesCoreDet sfNone
      (.obj [("reference_angles",
        .obj [("neck", .num 150), ("back", .num 100), ("legs", .num 120)])]) =
      some (.inl ⟨150, 100, 120⟩) := by
  exact (C4_direct_path_keys sfNone
    [("reference_angles", .obj [("neck", .num 150), ("back", .num 100), ("legs", .num 120)])]
    (.obj [("neck", .num 150), ("back", .num 100), ("legs", .num 120)])
    ⟨150, 100, 120⟩).2.2 rfl rfl rfl rfl rfl

/-- The payload with a present but non-numeric `neck` field inside its
`angles` sub-object: `{"angles": {"neck": null, "back": 100,
"legs": 120}}`. -/
def malformedAnglesPayload : JVal :=
  .obj [("angles", .obj [("neck", .null), ("back", .num 100), ("legs", .num 120)])]

/-- C5: the lightGBM `get_angles_from_payload` is not total: on a payload
whose `angles` sub-object carries a non-numeric `neck` field, the
unguarded `float(...)` in its `_extract_angles` raises instead of
returning the unavailable sentinel (the Android detector guards the same
conversion with try/except). -/
theorem C5_lgbm_direct_extraction_raises :
    getAnglesCoreLGBM sfNone malformedAnglesPayload =
      .error "float() raised on the neck field" ∧
    get_angles_from_payload_lgbm sfNone malformedAnglesPayload =
      .error "float() raised on the neck field" := by
  constructor
  · rfl
  · rfl

/-- Lookup in a dict mapped by a key-preserving binding transform. -/
lemma alistGet_map_keyed (f : String × JVal → String × JVal)
    (hk : ∀ kv, (f kv).1 = kv.1) (fs : List (String × JVal)) (k : String) :
    alistGet (fs.map f) k = (alistGet fs k).map (fun v => (f (k, v)).2) := by
  induction fs with
  | nil => rfl
  | cons kv rest ih =>
    obtain ⟨k1, v1⟩ := kv
    rcases hfv : f (k1, v1) with ⟨k2, v2⟩
    have hk2 : k2 = k1 := by
      have h1 := hk (k1, v1)
      rw [hfv] at h1
      exact h1
    rw [hk2] at hfv
    by_cases hkk : k1 = k
    · subst hkk
      simp [alistGet, hfv]
    · simp [alistGet, hfv, hkk, ih]

/-- The per-binding delta transform preserves keys. -/
lemma deltaField_fst (sf : String → Option ℚ) (d : ℚ × ℚ) (kv : String × JVal) :
    (deltaField sf d kv).1 = kv.1 := by
  unfold deltaField
  split_ifs <;> rfl

/-- The inner position-coordinate transform preserves keys. -/
lemma shiftCoordField_fst (sf : String → Option ℚ) (d : ℚ × ℚ) (kv : String × JVal) :
    (shiftCoordField sf d kv).1 = kv.1 := by
  unfold shiftCoordField
  split_ifs <;> rfl

/-- The per-binding container processing preserves keys. -/
lemma processDictEntry_fst (sf : String → Option ℚ) (Z : CoordOffsets) (kv : String × JVal) :
    (processDictEntry sf Z kv).1 = kv.1 := by
  obtain ⟨k1, v1⟩ := kv
  unfold processDictEntry
  cases v1 <;> dsimp only <;> (repeat' split) <;> rfl

/-- The payload-level container field transform preserves keys. -/
lemma processContainerField_fst (sf : String → Option ℚ) (Z : CoordOffsets)
    (kv : String × JVal) : (processContainerField sf Z kv).1 = kv.1 := by
  unfold processContainerField
  split_ifs <;> rfl

/-- The x-field of a shifted keypoint entry. -/
lemma applyDeltaFields_get_x (sf : String → Option ℚ) (fs : List (String × JVal)) (d : ℚ × ℚ) :
    alistGet (applyDeltaFields sf fs d) "x" =
      (alistGet fs "x").map (fun v => shiftVal sf v d.1) := by
  rw [applyDeltaFields, alistGet_map_keyed (deltaField sf d) (deltaField_fst sf d)]
  rfl

/-- The y-field of a shifted keypoint entry. -/
lemma applyDeltaFields_get_y (sf : String → Option ℚ) (fs : List (String × JVal)) (d : ℚ × ℚ) :
    alistGet (applyDeltaFields sf fs d) "y" =
      (alistGet fs "y").map (fun v => shiftVal sf v d.2) := by
  rw [applyDeltaFields, alistGet_map_keyed (deltaField sf d) (deltaField_fst sf d)]
  rfl

/-- The position field of a shifted keypoint entry. -/
lemma applyDeltaFields_get_position (sf : String → Option ℚ) (fs : List (String × JVal))
    (d : ℚ × ℚ) :
    alistGet (applyDeltaFields sf fs d) "position" =
      (alistGet fs "position").map (shiftPositionObj sf d) := by
  rw [applyDeltaFields, alistGet_map_keyed (deltaField sf d) (deltaField_fst sf d)]
  rfl

/-- Fields other than x, y and position are untouched by the delta. -/
lemma applyDeltaFields_get_other (sf : String → Option ℚ) (fs : List (String × JVal))
    (d : ℚ × ℚ) (k : String) (hx : k ≠ "x") (hy : k ≠ "y") (hp : k ≠ "position") :
    alistGet (applyDeltaFields sf fs d) k = alistGet fs k := by
  rw [applyDeltaFields, alistGet_map_keyed (deltaField sf d) (deltaField_fst sf d)]
  have hfn : (fun v => (deltaField sf d (k, v)).2) = fun v => v := by
    funext v
    unfold deltaField
    simp [hx, hy, hp]
  rw [hfn]
  cases alistGet fs k <;> rfl

/-- `personsFieldName` only ever selects the persons or people field. -/
lemma personsFieldName_cases {fs : List (String × JVal)} {pk : String}
    (h : personsFieldName fs = some pk) : pk = "persons" ∨ pk = "people" := by
  unfold personsFieldName at h
  repeat' split at h
  all_goals simp_all

/-- Fields other than the selected persons field survive the first stage
of offset application untouched. -/
lemma applyPersonsStage_get (sf : String → Option ℚ) (Z : CoordOffsets)
    (fs : List (String × JVal)) (k : String) (hp : k ≠ "persons") (hq : k ≠ "people") :
    alistGet (applyPersonsStage sf Z fs) k = alistGet fs k := by
  unfold applyPersonsStage
  cases hpf : personsFieldName fs with
  | none => rfl
  | some pk =>
    rw [alistGet_map_keyed _ (by
      intro kv
      split_ifs <;> rfl)]
    have hkpk : k ≠ pk := by
      rcases personsFieldName_cases hpf with h1 | h1 <;> simp [h1, hp, hq]
    have hfn2 : (fun v => ((if k = pk then ((k : String), processPersonsList sf Z v)
        else (k, v)) : String × JVal).2) = fun v => v := by
      funext v
      rw [if_neg hkpk]
    rw [hfn2]
    cases alistGet fs k <;> rfl

/-- Fields other than persons, people and the candidate container keys
survive `apply_keypoint_offsets_to_payload` untouched. -/
lemma apply_offsets_frame (sf : String → Option ℚ) (Z : CoordOffsets)
    (fs : List (String × JVal)) (k : String) (hp : k ≠ "persons") (hq : k ≠ "people")
    (hc : candidateKeys.contains k = false) :
    JVal.getKey (apply_keypoint_offsets_to_payload sf (.obj fs) Z) k = alistGet fs k := by
  unfold apply_keypoint_offsets_to_payload
  split_ifs with hz
  · rfl
  simp only [JVal.getKey]
  rw [alistGet_map_keyed (processContainerField sf Z) (processContainerField_fst sf Z)]
  have hmem : ¬ (k ∈ candidateKeys) := by simpa using hc
  have hcf : (fun v => (processContainerField sf Z (k, v)).2) = fun v => v := by
    funext v
    unfold processContainerField
    simp [hmem]
  rw [hcf, applyPersonsStage_get sf Z fs k hp hq]
  cases alistGet fs k <;> rfl

/-- C9: `apply_keypoint_offsets_to_payload` returns the input unchanged
for non-dict payloads and empty offset maps (and, being modelled
functionally over the source's deep copy, never mutates its input);
fields outside the persons/people lists and the keypoint containers are
untouched; a part without a defined offset is untouched (equivalently,
shifted by 0); a part with an offset has its numeric x/y values (top
level, nested under position, or the first two elements of a sequence
entry) shifted by that offset, while non-numeric or missing coordinate
values are left untouched without raising. -/
theorem C9_apply_offsets_contract :
    ∀ (sf : String → Option ℚ) (Z : CoordOffsets),
      (∀ l : List JVal, apply_keypoint_offsets_to_payload sf (.arr l) Z = .arr l) ∧
      (∀ payload, apply_keypoint_offsets_to_payload sf payload [] = payload) ∧
      (∀ fs k, k ≠ "persons" → k ≠ "people" → candidateKeys.contains k = false →
        JVal.getKey (apply_keypoint_offsets_to_payload sf (.obj fs) Z) k = alistGet fs k) ∧
      (∀ name e, alistGet Z name = none → processDictEntry sf Z (name, e) = (name, e)) ∧
      (∀ name efs d, alistGet Z name = some d →
        processDictEntry sf Z (name, .obj efs) = (name, .obj (applyDeltaFields sf efs d))) ∧
      (∀ fs d, alistGet (applyDeltaFields sf fs d) "x" =
        (alistGet fs "x").map (fun v => shiftVal sf v d.1)) ∧
      (∀ fs d, alistGet (applyDeltaFields sf fs d) "y" =
        (alistGet fs "y").map (fun v => shiftVal sf v d.2)) ∧
      (∀ fs d, alistGet (applyDeltaFields sf fs d) "position" =
        (alistGet fs "position").map (shiftPositionObj sf d)) ∧
      (∀ fs d k, k ≠ "x" → k ≠ "y" → k ≠ "position" →
        alistGet (applyDeltaFields sf fs d) k = alistGet fs k) ∧
      (∀ pf d, shiftPositionObj sf d (.obj pf) = .obj (pf.map (shiftCoordField sf d))) ∧
      (∀ v d q, pyFloat sf v = some q → shiftVal sf v d = .num (q + d)) ∧
      (∀ v d, pyFloat sf v = none → shiftVal sf v d = v) ∧
      (∀ x y rest d qx qy, pyFloat sf x = some qx → pyFloat sf y = some qy →
        shiftListEntry sf (x :: y :: rest) d =
          some (.num (qx + d.1) :: .num (qy + d.2) :: rest)) ∧
      (∀ x y rest d, pyFloat sf x = none ∨ pyFloat sf y = none →
        shiftListEntry sf (x :: y :: rest) d = none) ∧
      (∀ name items d items', 2 ≤ items.length → alistGet Z name = some d →
        shiftListEntry sf items d = some items' →
        processDictEntry sf Z (name, .arr items) = (name, .arr items')) ∧
      (∀ name items d, 2 ≤ items.length → alistGet Z name = some d →
        shiftListEntry sf items d = none →
        processDictEntry sf Z (name, .arr items) = (name, .arr items)) := by
  intro sf Z
  refine ⟨fun l => rfl, ?_, apply_offsets_frame sf Z, ?_, ?_,
    applyDeltaFields_get_x sf, applyDeltaFields_get_y sf, applyDeltaFields_get_position sf,
    applyDeltaFields_get_other sf, fun pf d => rfl, ?_, ?_, ?_, ?_, ?_, ?_⟩
  · intro payload
    cases payload <;> rfl
  · intro name e h
    cases e <;> simp [processDictEntry, h]
  · intro name efs d h
    unfold processDictEntry
    simp [h]
  · intro v d q h
    cases v <;> simp_all [pyFloat, shiftVal]
  · intro v d h
    cases v <;> simp_all [pyFloat, shiftVal]
  · intro x y rest d qx qy hx hy
    simp [shiftListEntry, hx, hy]
  · intro x y rest d h
    rcases h with h | h
    · simp [shiftListEntry, h]
    · cases hx2 : pyFloat sf x <;> simp [shiftListEntry, hx2, h]
  · intro name items d items' hlen hz hshift
    unfold processDictEntry
    simp [hlen, hz, hshift]
  · intro name items d hlen hz hshift
    unfold processDictEntry
    simp [hlen, hz, hshift]

/-- Witness for C9: a part with no defined offset is left untouched on a
concrete entry. -/
theorem C9_witness :
    processDictEntry sfNone [] ("left_ear", .obj [("x", .num 3)]) =
      ("left_ear", .obj [("x", .num 3)]) :=
  (C9_apply_offsets_contract sfNone []).2.2.2.1 "left_ear" (.obj [("x", .num 3)]) rfl

/-- The observation the geometric extraction makes of one keypoint entry:
its confidence and the float conversions of its x and y fields. -/
def coordObs (sf : String → Option ℚ) (v : JVal) : ℚ × Option ℚ × Option ℚ :=
  (confOf sf v, coordRead sf v "x", coordRead sf v "y")

/-- The observation the geometric extraction makes of a whole keypoint
lookup. -/
def lookupObs (sf : String → Option ℚ) (l : List (String × JVal)) :
    List (String × (ℚ × Option ℚ × Option ℚ)) :=
  l.map (fun kv => (kv.1, coordObs sf kv.2))

/-- A lookup hit found by `alistGet` is a member of the list. -/
lemma alistGet_mem {α : Type} {l : List (String × α)} {k : String} {v : α}
    (h : alistGet l k = some v) : (k, v) ∈ l := by
  induction l with
  | nil => simp [alistGet] at h
  | cons kv rest ih =>
    obtain ⟨k1, v1⟩ := kv
    by_cases hkk : k1 = k
    · subst hkk
      simp [alistGet] at h
      subst h
      exact List.mem_cons_self _ _
    · simp only [alistGet, if_neg hkk] at h
      exact List.mem_cons_of_mem _ (ih h)

/-- Equal lookup observations give equal per-key observations. -/
lemma alistGet_obs_congr {sf : String → Option ℚ} {l1 l2 : List (String × JVal)}
    (h : lookupObs sf l1 = lookupObs sf l2) (k : String) :
    (alistGet l1 k).map (coordObs sf) = (alistGet l2 k).map (coordObs sf) := by
  induction l1 generalizing l2 with
  | nil =>
    cases l2 with
    | nil => rfl
    | cons kv2 rest2 => simp [lookupObs] at h
  | cons kv rest ih =>
    cases l2 with
    | nil => simp [lookupObs] at h
    | cons kv2 rest2 =>
      obtain ⟨k1, v1⟩ := kv
      obtain ⟨k2, v2⟩ := kv2
      simp only [lookupObs, List.map_cons, List.cons.injEq, Prod.mk.injEq] at h
      obtain ⟨⟨hkeq, hveq⟩, htail⟩ := h
      subst hkeq
      by_cases hkk : k1 = k
      · subst hkk
        simp [alistGet, hveq]
      · simp only [alistGet, if_neg hkk]
        exact ih htail

/-- Equal per-key observations give equal confidences. -/
lemma confValue_obs_congr {sf : String → Option ℚ} {o1 o2 : Option JVal}
    (h : o1.map (coordObs sf) = o2.map (coordObs sf)) :
    confValue sf o1 = confValue sf o2 := by
  cases o1 with
  | none => cases o2 with
    | none => rfl
    | some v2 => simp at h
  | some v1 =>
    cases o2 with
    | none => simp at h
    | some v2 =>
      simp only [Option.map_some', Option.some.injEq] at h
      have h1 : (coordObs sf v1).1 = (coordObs sf v2).1 := by rw [h]
      simpa [coordObs, confValue] using h1

/-- Equal per-key observations give equal required-part results. -/
lemma requirePart_obs_congr {sf : String → Option ℚ} {l1 l2 : List (String × JVal)}
    (h : lookupObs sf l1 = lookupObs sf l2) (k : String) :
    requirePart sf l1 k = requirePart sf l2 k := by
  have hget := alistGet_obs_congr h k
  simp only [requirePart]
  rw [confValue_obs_congr hget]
  split_ifs with hc
  · rfl
  · cases h1 : alistGet l1 k with
    | none =>
      cases h2 : alistGet l2 k with
      | none => rfl
      | some v2 => rw [h1, h2] at hget; simp at hget
    | some v1 =>
      cases h2 : alistGet l2 k with
      | none => rw [h1, h2] at hget; simp at hget
      | some v2 =>
        rw [h1, h2] at hget
        simp only [Option.map_some', Option.some.injEq] at hget
        have hx : coordRead sf v1 "x" = coordRead sf v2 "x" := by
          have := congrArg (fun o => o.2.1) hget
          simpa [coordObs] using this
        have hy : coordRead sf v1 "y" = coordRead sf v2 "y" := by
          have := congrArg (fun o => o.2.2) hget
          simpa [coordObs] using this
        show (match coordRead sf v1 "x", coordRead sf v1 "y" with
              | some x, some y => some (x, y)
              | _, _ => none) =
            (match coordRead sf v2 "x", coordRead sf v2 "y" with
              | some x, some y => some (x, y)
              | _, _ => none)
        rw [hx, hy]

/-- Equal lookup observations give equal side choices. -/
lemma chooseSide_obs_congr {sf : String → Option ℚ} {l1 l2 : List (String × JVal)}
    (h : lookupObs sf l1 = lookupObs sf l2) :
    chooseSide sf l1 = chooseSide sf l2 := by
  unfold chooseSide
  rw [confValue_obs_congr (alistGet_obs_congr h "left_ear"),
    confValue_obs_congr (alistGet_obs_congr h "right_ear")]

/-- Equal lookup observations give equal geometric extraction results. -/
lemma extractGeomCoords_obs_congr {sf : String → Option ℚ} {l1 l2 : List (String × JVal)}
    (h : lookupObs sf l1 = lookupObs sf l2) :
    extractGeomCoords sf l1 = extractGeomCoords sf l2 := by
  simp only [extractGeomCoords]
  rw [chooseSide_obs_congr h,
    requirePart_obs_congr h (chooseSide sf l2 ++ "_ear"),
    requirePart_obs_congr h (chooseSide sf l2 ++ "_shoulder"),
    requirePart_obs_congr h (chooseSide sf l2 ++ "_hip"),
    requirePart_obs_congr h (chooseSide sf l2 ++ "_knee"),
    requirePart_obs_congr h (chooseSide sf l2 ++ "_ankle")]

/-- Equal lookup observations have equal emptiness. -/
lemma isEmpty_obs_congr {sf : String → Option ℚ} {l1 l2 : List (String × JVal)}
    (h : lookupObs sf l1 = lookupObs sf l2) : l1.isEmpty = l2.isEmpty := by
  have hlen : l1.length = l2.length := by
    have := congrArg List.length h
    simpa [lookupObs] using this
  cases l1 <;> cases l2 <;> simp_all

/-- Shifting a value by zero preserves its float conversion. -/
lemma pyFloat_shiftVal_zero (sf : String → Option ℚ) (v : JVal) :
    pyFloat sf (shiftVal sf v 0) = pyFloat sf v := by
  cases v with
  | null => rfl
  | num q => simp [shiftVal, pyFloat]
  | str s =>
    simp only [shiftVal, pyFloat]
    cases hs : sf s <;> simp [pyFloat, hs]
  | bool b =>
    simp [shiftVal, pyFloat]
  | arr l => rfl
  | obj fs => rfl

/-- `nnGet` only depends on the listed keys. -/
lemma nnGet_congr {fs1 fs2 : List (String × JVal)} {ks : List String}
    (h : ∀ k ∈ ks, alistGet fs1 k = alistGet fs2 k) : nnGet fs1 ks = nnGet fs2 ks := by
  induction ks with
  | nil => rfl
  | cons k rest ih =>
    simp only [nnGet]
    rw [h k (List.mem_cons_self _ _)]
    have ih2 := ih (fun k2 hk2 => h k2 (List.mem_cons_of_mem _ hk2))
    cases alistGet fs2 k with
    | none => exact ih2
    | some v => cases v <;> simp [ih2]

/-- `presChain` only depends on the listed keys. -/
lemma presChain_congr {fs1 fs2 : List (String × JVal)} {ks : List String} {dflt : JVal}
    (h : ∀ k ∈ ks, alistGet fs1 k = alistGet fs2 k) :
    presChain fs1 ks dflt = presChain fs2 ks dflt := by
  induction ks with
  | nil => rfl
  | cons k rest ih =>
    simp only [presChain]
    rw [h k (List.mem_cons_self _ _)]
    have ih2 := ih (fun k2 hk2 => h k2 (List.mem_cons_of_mem _ hk2))
    cases alistGet fs2 k with
    | none => exact ih2
    | some v => rfl

/-- `firstTruthy` only depends on the listed keys. -/
lemma firstTruthy_congr {fs1 fs2 : List (String × JVal)} {ks : List String}
    (h : ∀ k ∈ ks, alistGet fs1 k = alistGet fs2 k) :
    firstTruthy fs1 ks = firstTruthy fs2 ks := by
  induction ks with
  | nil => rfl
  | cons k rest ih =>
    simp only [firstTruthy]
    rw [h k (List.mem_cons_self _ _)]
    have ih2 := ih (fun k2 hk2 => h k2 (List.mem_cons_of_mem _ hk2))
    cases alistGet fs2 k with
    | none => exact ih2
    | some v => simp [ih2]

/-- The confidence of a keypoint entry survives a zero delta. -/
lemma confOf_applyDelta_zero (sf : String → Option ℚ) (fs : List (String × JVal)) :
    confOf sf (.obj (applyDeltaFields sf fs (0, 0))) = confOf sf (.obj fs) := by
  have hkeys : ∀ k, k ≠ "x" → k ≠ "y" → k ≠ "position" →
      alistGet (applyDeltaFields sf fs (0, 0)) k = alistGet fs k := fun k hx hy hp =>
    applyDeltaFields_get_other sf fs (0, 0) k hx hy hp
  simp only [confOf]
  rw [hkeys "visible" (by decide) (by decide) (by decide)]
  rw [@nnGet_congr (applyDeltaFields sf fs (0, 0)) fs ["confidence", "score", "probability"]
    (fun k hk => by
      fin_cases hk <;> exact hkeys _ (by decide) (by decide) (by decide))]

/-- The x-coordinate read of a keypoint entry survives a zero delta. -/
lemma coordRead_applyDelta_zero_x (sf : String → Option ℚ) (fs : List (String × JVal)) :
    coordRead sf (.obj (applyDeltaFields sf fs (0, 0))) "x" = coordRead sf (.obj fs) "x" := by
  simp only [coordRead, JVal.getKey]
  rw [applyDeltaFields_get_x]
  cases alistGet fs "x" with
  | none => rfl
  | some v => simpa using pyFloat_shiftVal_zero sf v

/-- The y-coordinate read of a keypoint entry survives a zero delta. -/
lemma coordRead_applyDelta_zero_y (sf : String → Option ℚ) (fs : List (String × JVal)) :
    coordRead sf (.obj (applyDeltaFields sf fs (0, 0))) "y" = coordRead sf (.obj fs) "y" := by
  simp only [coordRead, JVal.getKey]
  rw [applyDeltaFields_get_y]
  cases alistGet fs "y" with
  | none => rfl
  | some v => simpa using pyFloat_shiftVal_zero sf v

/-- The whole observation of a dict-shaped keypoint entry survives a zero
delta. -/
lemma coordObs_applyDelta_zero (sf : String → Option ℚ) (fs : List (String × JVal)) :
    coordObs sf (.obj (applyDeltaFields sf fs (0, 0))) = coordObs sf (.obj fs) := by
  unfold coordObs
  rw [confOf_applyDelta_zero, coordRead_applyDelta_zero_x, coordRead_applyDelta_zero_y]

/-- The position sub-fields of a shifted entry are the shifted position
sub-fields. -/
lemma positionFields_applyDelta (sf : String → Option ℚ) (fs : List (String × JVal))
    (d : ℚ × ℚ) :
    positionFields (applyDeltaFields sf fs d) = (positionFields fs).map (shiftCoordField sf d) := by
  unfold positionFields
  rw [applyDeltaFields_get_position]
  cases alistGet fs "position" with
  | none => rfl
  | some v => cases v <;> rfl

/-- The x-field of a shifted position object. -/
lemma shiftCoordMap_get_x (sf : String → Option ℚ) (pf : List (String × JVal)) (d : ℚ × ℚ) :
    alistGet (pf.map (shiftCoordField sf d)) "x" =
      (alistGet pf "x").map (fun v => shiftVal sf v d.1) := by
  rw [alistGet_map_keyed (shiftCoordField sf d) (shiftCoordField_fst sf d)]
  rfl

/-- The y-field of a shifted position object. -/
lemma shiftCoordMap_get_y (sf : String → Option ℚ) (pf : List (String × JVal)) (d : ℚ × ℚ) :
    alistGet (pf.map (shiftCoordField sf d)) "y" =
      (alistGet pf "y").map (fun v => shiftVal sf v d.2) := by
  rw [alistGet_map_keyed (shiftCoordField sf d) (shiftCoordField_fst sf d)]
  rfl

/-- The presence-based x read of a list-shaped entry survives a zero
delta. -/
lemma presGet_x_zero (sf : String → Option ℚ) (fs : List (String × JVal)) :
    pyFloat sf (presGet (applyDeltaFields sf fs (0, 0)) "x"
        (positionFields (applyDeltaFields sf fs (0, 0)))) =
      pyFloat sf (presGet fs "x" (positionFields fs)) := by
  unfold presGet
  rw [applyDeltaFields_get_x, positionFields_applyDelta]
  cases alistGet fs "x" with
  | some v => simpa using pyFloat_shiftVal_zero sf v
  | none =>
    simp only [Option.map_none']
    rw [shiftCoordMap_get_x]
    cases alistGet (positionFields fs) "x" with
    | none => rfl
    | some w => simpa using pyFloat_shiftVal_zero sf w

/-- The presence-based y read of a list-shaped entry survives a zero
delta. -/
lemma presGet_y_zero (sf : String → Option ℚ) (fs : List (String × JVal)) :
    pyFloat sf (presGet (applyDeltaFields sf fs (0, 0)) "y"
        (positionFields (applyDeltaFields sf fs (0, 0)))) =
      pyFloat sf (presGet fs "y" (positionFields fs)) := by
  unfold presGet
  rw [applyDeltaFields_get_y, positionFields_applyDelta]
  cases alistGet fs "y" with
  | some v => simpa using pyFloat_shiftVal_zero sf v
  | none =>
    simp only [Option.map_none']
    rw [shiftCoordMap_get_y]
    cases alistGet (positionFields fs) "y" with
    | none => rfl
    | some w => simpa using pyFloat_shiftVal_zero sf w

/-- The confidence of a canonical normalised entry ignores the x and y
values. -/
lemma confOf_entry_xy_indep (sf : String → Option ℚ) (a1 b1 a2 b2 c vis : JVal) :
    confOf sf (.obj [("x", a1), ("y", b1), ("confidence", c), ("visible", vis)]) =
      confOf sf (.obj [("x", a2), ("y", b2), ("confidence", c), ("visible", vis)]) := rfl

/-- The x read of a canonical normalised entry is the float conversion of
its x value. -/
lemma coordRead_entry_x (sf : String → Option ℚ) (a b c vis : JVal) :
    coordRead sf (.obj [("x", a), ("y", b), ("confidence", c), ("visible", vis)]) "x" =
      pyFloat sf a := rfl

/-- The y read of a canonical normalised entry is the float conversion of
its y value. -/
lemma coordRead_entry_y (sf : String → Option ℚ) (a b c vis : JVal) :
    coordRead sf (.obj [("x", a), ("y", b), ("confidence", c), ("visible", vis)]) "y" =
      pyFloat sf b := rfl

/-- The observation of a normalised list-shaped entry survives a zero
delta applied to the raw entry. -/
lemma coordObs_normalisedListEntry_zero (sf : String → Option ℚ)
    (fs : List (String × JVal)) :
    coordObs sf (.obj (normalisedListEntry (applyDeltaFields sf fs (0, 0)))) =
      coordObs sf (.obj (normalisedListEntry fs)) := by
  have hother : ∀ k, k ≠ "x" → k ≠ "y" → k ≠ "position" →
      alistGet (applyDeltaFields sf fs (0, 0)) k = alistGet fs k := fun k hx hy hp =>
    applyDeltaFields_get_other sf fs (0, 0) k hx hy hp
  have hconf : presChain (applyDeltaFields sf fs (0, 0))
      ["confidence", "score", "probability"] .null =
      presChain fs ["confidence", "score", "probability"] .null :=
    presChain_congr (fun k hk => by
      fin_cases hk <;> exact hother _ (by decide) (by decide) (by decide))
  have hvis : presChain (applyDeltaFields sf fs (0, 0)) ["visible", "is_visible"] (.bool true) =
      presChain fs ["visible", "is_visible"] (.bool true) :=
    presChain_congr (fun k hk => by
      fin_cases hk <;> exact hother _ (by decide) (by decide) (by decide))
  simp only [normalisedListEntry]
  rw [hconf, hvis]
  unfold coordObs
  rw [coordRead_entry_x, coordRead_entry_x, coordRead_entry_y, coordRead_entry_y,
    confOf_entry_xy_indep sf _ _
      (presGet fs "x" (positionFields fs)) (presGet fs "y" (positionFields fs)),
    presGet_x_zero, presGet_y_zero]

/-- Unfolding of `lookupObs` over a cons cell. -/
lemma lookupObs_cons (sf : String → Option ℚ) (kv : String × JVal)
    (l : List (String × JVal)) :
    lookupObs sf (kv :: l) = (kv.1, coordObs sf kv.2) :: lookupObs sf l := rfl

/-- The confidence of a dict-normalised sequence entry ignores the x and
y values. -/
lemma confOf_entry3_xy_indep (sf : String → Option ℚ) (a1 b1 a2 b2 c : JVal) :
    confOf sf (.obj [("x", a1), ("y", b1), ("confidence", c)]) =
      confOf sf (.obj [("x", a2), ("y", b2), ("confidence", c)]) := rfl

/-- The x read of a dict-normalised sequence entry. -/
lemma coordRead_entry3_x (sf : String → Option ℚ) (a b c : JVal) :
    coordRead sf (.obj [("x", a), ("y", b), ("confidence", c)]) "x" = pyFloat sf a := rfl

/-- The y read of a dict-normalised sequence entry. -/
lemma coordRead_entry3_y (sf : String → Option ℚ) (a b c : JVal) :
    coordRead sf (.obj [("x", a), ("y", b), ("confidence", c)]) "y" = pyFloat sf b := rfl

/-- A common head entry can be peeled off a dict-branch normalisation
observation equality. -/
lemma normDict_head_congr (sf : String → Option ℚ) (label : String) (v : JVal)
    {A B : List (String × JVal)}
    (h : lookupObs sf (normDict A) = lookupObs sf (normDict B)) :
    lookupObs sf (normDict ((label, v) :: A)) = lookupObs sf (normDict ((label, v) :: B)) := by
  cases v with
  | obj f =>
    simp only [normDict]
    rw [lookupObs_cons, lookupObs_cons, h]
  | arr items =>
    match items with
    | x :: y :: c :: rest =>
      simp only [normDict]
      rw [lookupObs_cons, lookupObs_cons, h]
    | [x, y] => exact h
    | [x] => exact h
    | [] => exact h
  | num q => exact h
  | str s => exact h
  | bool b => exact h
  | null => exact h

/-- A common head element can be peeled off a list-branch normalisation
observation equality. -/
lemma normList_head_congr (sf : String → Option ℚ) (e : JVal) {A B : List JVal}
    (h : lookupObs sf (normList A) = lookupObs sf (normList B)) :
    lookupObs sf (normList (e :: A)) = lookupObs sf (normList (e :: B)) := by
  cases e with
  | obj fs =>
    cases hn : asStringName (firstTruthy fs ["part_name", "name", "part", "id"]) with
    | none => simpa only [normList, hn] using h
    | some nm =>
      simp only [normList, hn]
      rw [lookupObs_cons, lookupObs_cons, h]
  | num q => exact h
  | str s => exact h
  | bool b => exact h
  | null => exact h
  | arr l => exact h

/-- The dict branch of normalisation observes the same lookups before and
after an all-zero offset application. -/
lemma lookupObs_normDict_zero (sf : String → Option ℚ) (Z : CoordOffsets)
    (hZ : ∀ nm d, alistGet Z nm = some d → d = (0, 0)) (fs : List (String × JVal)) :
    lookupObs sf (normDict (fs.map (processDictEntry sf Z))) =
      lookupObs sf (normDict fs) := by
  induction fs with
  | nil => rfl
  | cons kv rest ih =>
    obtain ⟨label, v⟩ := kv
    simp only [List.map_cons]
    cases v with
    | obj efs =>
      cases hz : alistGet Z label with
      | none =>
        have hpd : processDictEntry sf Z (label, .obj efs) = (label, .obj efs) := by
          simp [processDictEntry, hz]
        rw [hpd]
        exact normDict_head_congr sf label (.obj efs) ih
      | some d =>
        have hd := hZ label d hz
        subst hd
        have hpd : processDictEntry sf Z (label, .obj efs) =
            (label, .obj (applyDeltaFields sf efs (0, 0))) := by
          simp [processDictEntry, hz]
        rw [hpd]
        simp only [normDict]
        rw [lookupObs_cons, lookupObs_cons, ih]
        simp only [coordObs_applyDelta_zero]
    | arr items =>
      match items with
      | [] =>
        have hpd : processDictEntry sf Z (label, .arr []) = (label, .arr []) := by
          simp [processDictEntry]
        rw [hpd]
        exact normDict_head_congr sf label (.arr []) ih
      | [x] =>
        have hpd : processDictEntry sf Z (label, .arr [x]) = (label, .arr [x]) := by
          simp [processDictEntry]
        rw [hpd]
        exact normDict_head_congr sf label (.arr [x]) ih
      | x :: y :: rest2 =>
        cases hz : alistGet Z label with
        | none =>
          have hpd : processDictEntry sf Z (label, .arr (x :: y :: rest2)) =
              (label, .arr (x :: y :: rest2)) := by
            simp [processDictEntry, hz]
          rw [hpd]
          exact normDict_head_congr sf label (.arr (x :: y :: rest2)) ih
        | some d =>
          have hd := hZ label d hz
          subst hd
          cases hsx : pyFloat sf x with
          | none =>
            have hpd : processDictEntry sf Z (label, .arr (x :: y :: rest2)) =
                (label, .arr (x :: y :: rest2)) := by
              simp [processDictEntry, hz, shiftListEntry, hsx]
            rw [hpd]
            exact normDict_head_congr sf label (.arr (x :: y :: rest2)) ih
          | some qx =>
            cases hsy : pyFloat sf y with
            | none =>
              have hpd : processDictEntry sf Z (label, .arr (x :: y :: rest2)) =
                  (label, .arr (x :: y :: rest2)) := by
                simp [processDictEntry, hz, shiftListEntry, hsx, hsy]
              rw [hpd]
              exact normDict_head_congr sf label (.arr (x :: y :: rest2)) ih
            | some qy =>
              have hpd : processDictEntry sf Z (label, .arr (x :: y :: rest2)) =
                  (label, .arr (.num (qx + 0) :: .num (qy + 0) :: rest2)) := by
                simp [processDictEntry, hz, shiftListEntry, hsx, hsy]
              rw [hpd]
              cases rest2 with
              | nil => exact ih
              | cons c rest3 =>
                simp only [normDict]
                rw [lookupObs_cons, lookupObs_cons, ih]
                have hobs : coordObs sf
                    (.obj [("x", .num (qx + 0)), ("y", .num (qy + 0)), ("confidence", c)]) =
                    coordObs sf (.obj [("x", x), ("y", y), ("confidence", c)]) := by
                  unfold coordObs
                  rw [coordRead_entry3_x, coordRead_entry3_x, coordRead_entry3_y,
                    coordRead_entry3_y, confOf_entry3_xy_indep sf _ _ x y, hsx, hsy]
                  simp [pyFloat]
                rw [hobs]
    | num q =>
      have hpd : processDictEntry sf Z (label, .num q) = (label, .num q) := by
        simp [processDictEntry]
      rw [hpd]
      exact normDict_head_congr sf label (.num q) ih
    | str s =>
      have hpd : processDictEntry sf Z (label, .str s) = (label, .str s) := by
        simp [processDictEntry]
      rw [hpd]
      exact normDict_head_congr sf label (.str s) ih
    | bool b =>
      have hpd : processDictEntry sf Z (label, .bool b) = (label, .bool b) := by
        simp [processDictEntry]
      rw [hpd]
      exact normDict_head_congr sf label (.bool b) ih
    | null =>
      have hpd : processDictEntry sf Z (label, .null) = (label, .null) := by
        simp [processDictEntry]
      rw [hpd]
      exact normDict_head_congr sf label .null ih

/-- The list branch of normalisation observes the same lookups before and
after an all-zero offset application. -/
lemma lookupObs_normList_zero (sf : String → Option ℚ) (Z : CoordOffsets)
    (hZ : ∀ nm d, alistGet Z nm = some d → d = (0, 0)) (es : List JVal) :
    lookupObs sf (normList (es.map (processListElem sf Z))) =
      lookupObs sf (normList es) := by
  induction es with
  | nil => rfl
  | cons e rest ih =>
    simp only [List.map_cons]
    cases e with
    | obj fs =>
      cases hname : asStringName (firstTruthy fs ["name", "part_name", "part", "id"]) with
      | none =>
        have hpe : processListElem sf Z (.obj fs) = .obj fs := by
          simp [processListElem, hname]
        rw [hpe]
        exact normList_head_congr sf (.obj fs) ih
      | some nm =>
        cases hz : alistGet Z nm with
        | none =>
          have hpe : processListElem sf Z (.obj fs) = .obj fs := by
            simp [processListElem, hname, hz]
          rw [hpe]
          exact normList_head_congr sf (.obj fs) ih
        | some d =>
          have hd := hZ nm d hz
          subst hd
          have hpe : processListElem sf Z (.obj fs) = .obj (applyDeltaFields sf fs (0, 0)) := by
            simp [processListElem, hname, hz]
          rw [hpe]
          have hft : firstTruthy (applyDeltaFields sf fs (0, 0))
              ["part_name", "name", "part", "id"] =
              firstTruthy fs ["part_name", "name", "part", "id"] :=
            firstTruthy_congr (fun k hk => by
              fin_cases hk <;>
                exact applyDeltaFields_get_other sf fs (0, 0) _ (by decide) (by decide)
                  (by decide))
          cases hnm2 : asStringName (firstTruthy fs ["part_name", "name", "part", "id"]) with
          | none =>
            simp only [normList, hft, hnm2]
            exact ih
          | some nm2 =>
            simp only [normList, hft, hnm2]
            rw [lookupObs_cons, lookupObs_cons, ih, coordObs_normalisedListEntry_zero]
    | num q => exact normList_head_congr sf (.num q) ih
    | str s => exact normList_head_congr sf (.str s) ih
    | bool b => exact normList_head_congr sf (.bool b) ih
    | null => exact normList_head_congr sf .null ih
    | arr l => exact normList_head_congr sf (.arr l) ih

/-- Normalisation of a keypoint container observes the same lookups
before and after an all-zero offset application. -/
lemma lookupObs_normalise_zero (sf : String → Option ℚ) (Z : CoordOffsets)
    (hZ : ∀ nm d, alistGet Z nm = some d → d = (0, 0)) (c : JVal) :
    lookupObs sf (normaliseKeypoints (processKeypoints sf Z c)) =
      lookupObs sf (normaliseKeypoints c) := by
  cases c with
  | obj fs => exact lookupObs_normDict_zero sf Z hZ fs
  | arr es => exact lookupObs_normList_zero sf Z hZ es
  | num q => rfl
  | str s => rfl
  | bool b => rfl
  | null => rfl

/-- Candidate container fields of a processed object hold the processed
containers. -/
lemma containerField_get (sf : String → Option ℚ) (Z : CoordOffsets)
    (fs : List (String × JVal)) (k : String) (hk : candidateKeys.contains k = true) :
    alistGet (fs.map (processContainerField sf Z)) k =
      (alistGet fs k).map (processKeypoints sf Z) := by
  rw [alistGet_map_keyed (processContainerField sf Z) (processContainerField_fst sf Z)]
  have hmem : k ∈ candidateKeys := by simpa using hk
  have hcf : (fun v => (processContainerField sf Z (k, v)).2) =
      fun v => processKeypoints sf Z v := by
    funext v
    unfold processContainerField
    simp [hmem]
  rw [hcf]

/-- Person-list processing preserves truthiness. -/
lemma processPersonsList_truthy (sf : String → Option ℚ) (Z : CoordOffsets) (v : JVal) :
    (processPersonsList sf Z v).truthy = v.truthy := by
  cases v with
  | arr l => cases l <;> simp [processPersonsList, JVal.truthy]
  | num q => rfl
  | str s => rfl
  | bool b => rfl
  | null => rfl
  | obj fs => rfl

/-- When `personsFieldName` selects persons, the persons field is present
and truthy. -/
lemma personsFieldName_persons {fs : List (String × JVal)}
    (h : personsFieldName fs = some "persons") :
    ∃ v, alistGet fs "persons" = some v ∧ v.truthy = true := by
  unfold personsFieldName at h
  cases hv : alistGet fs "persons" with
  | none =>
    rw [hv] at h
    cases hps : (alistGet fs "people").isSome <;> simp [hps] at h
  | some v =>
    rw [hv] at h
    by_cases ht : v.truthy
    · exact ⟨v, rfl, ht⟩
    · have h2 : (if (alistGet fs "people").isSome = true then some "people" else none) =
          some "persons" := by
        simp only [ht, if_false, Bool.false_eq_true] at h
        exact h
      cases hps : (alistGet fs "people").isSome <;> simp [hps] at h2

/-- When `personsFieldName` selects people, the people field is present
and the persons field is absent or falsy. -/
lemma personsFieldName_people {fs : List (String × JVal)}
    (h : personsFieldName fs = some "people") :
    (alistGet fs "people").isSome = true ∧
      (alistGet fs "persons" = none ∨
        ∃ v, alistGet fs "persons" = some v ∧ v.truthy = false) := by
  unfold personsFieldName at h
  cases hv : alistGet fs "persons" with
  | none =>
    rw [hv] at h
    cases hps : (alistGet fs "people").isSome with
    | false => simp [hps] at h
    | true => exact ⟨rfl, Or.inl rfl⟩
  | some v =>
    rw [hv] at h
    by_cases ht : v.truthy
    · simp [ht] at h
    · have h2 : (if (alistGet fs "people").isSome = true then some "people" else none) =
          some "people" := by simpa [ht] using h
      cases hps : (alistGet fs "people").isSome with
      | false => simp [hps] at h2
      | true => exact ⟨rfl, Or.inr ⟨v, rfl, by simpa using ht⟩⟩

/-- The persons field selected by `applyPersonsStage` holds the processed
persons list. -/
lemma applyPersonsStage_get_pk (sf : String → Option ℚ) (Z : CoordOffsets)
    {fs : List (String × JVal)} {pk : String} (h : personsFieldName fs = some pk) :
    alistGet (applyPersonsStage sf Z fs) pk =
      (alistGet fs pk).map (processPersonsList sf Z) := by
  unfold applyPersonsStage
  rw [h]
  rw [alistGet_map_keyed _ (by
    intro kv
    split_ifs <;> rfl)]
  have hfn : (fun v => ((if pk = pk then ((pk : String), processPersonsList sf Z v)
      else (pk, v)) : String × JVal).2) = fun v => processPersonsList sf Z v := by
    funext v
    rw [if_pos rfl]
  rw [hfn]

/-- Fields other than the selected one survive the first stage. -/
lemma applyPersonsStage_get_of_ne (sf : String → Option ℚ) (Z : CoordOffsets)
    {fs : List (String × JVal)} {pk : String} (h : personsFieldName fs = some pk)
    {k : String} (hne : k ≠ pk) :
    alistGet (applyPersonsStage sf Z fs) k = alistGet fs k := by
  unfold applyPersonsStage
  rw [h]
  rw [alistGet_map_keyed _ (by
    intro kv
    split_ifs <;> rfl)]
  have hfn : (fun v => ((if k = pk then ((k : String), processPersonsList sf Z v)
      else (k, v)) : String × JVal).2) = fun v => v := by
    funext v
    rw [if_neg hne]
  rw [hfn]
  cases alistGet fs k <;> rfl

/-- Effect of both offset-application stages on the resolved persons
value. -/
lemma personsValue_stage (sf : String → Option ℚ) (Z : CoordOffsets)
    (fs : List (String × JVal)) :
    personsValue ((applyPersonsStage sf Z fs).map (processContainerField sf Z)) =
      (match personsFieldName fs with
        | some _ => processPersonsList sf Z (personsValue fs)
        | none => personsValue fs) := by
  have hpersons : alistGet ((applyPersonsStage sf Z fs).map (processContainerField sf Z))
      "persons" = alistGet (applyPersonsStage sf Z fs) "persons" := by
    rw [alistGet_map_keyed (processContainerField sf Z) (processContainerField_fst sf Z)]
    have hcf : (fun v => (processContainerField sf Z ("persons", v)).2) = fun v => v := by
      funext v
      unfold processContainerField
      simp [candidateKeys]
    rw [hcf]
    cases alistGet (applyPersonsStage sf Z fs) "persons" <;> rfl
  have hpeople : alistGet ((applyPersonsStage sf Z fs).map (processContainerField sf Z))
      "people" = alistGet (applyPersonsStage sf Z fs) "people" := by
    rw [alistGet_map_keyed (processContainerField sf Z) (processContainerField_fst sf Z)]
    have hcf : (fun v => (processContainerField sf Z ("people", v)).2) = fun v => v := by
      funext v
      unfold processContainerField
      simp [candidateKeys]
    rw [hcf]
    cases alistGet (applyPersonsStage sf Z fs) "people" <;> rfl
  cases hpf : personsFieldName fs with
  | none =>
    have hstage : applyPersonsStage sf Z fs = fs := by
      unfold applyPersonsStage
      rw [hpf]
    unfold personsValue
    rw [hpersons, hpeople, hstage]
  | some pk =>
    rcases personsFieldName_cases hpf with rfl | rfl
    · obtain ⟨v, hv, ht⟩ := personsFieldName_persons hpf
      have hlhs : alistGet ((applyPersonsStage sf Z fs).map (processContainerField sf Z))
          "persons" = some (processPersonsList sf Z v) := by
        rw [hpersons, applyPersonsStage_get_pk sf Z hpf, hv]
        rfl
      have hrhs : personsValue fs = v := by
        simp [personsValue, hv, ht]
      rw [hrhs]
      unfold personsValue
      simp [hlhs, processPersonsList_truthy, ht]
    · obtain ⟨hps, hpers⟩ := personsFieldName_people hpf
      obtain ⟨w, hw⟩ := Option.isSome_iff_exists.mp hps
      have hget1 : alistGet ((applyPersonsStage sf Z fs).map (processContainerField sf Z))
          "persons" = alistGet fs "persons" := by
        rw [hpersons, applyPersonsStage_get_of_ne sf Z hpf (by decide)]
      have hget2 : alistGet ((applyPersonsStage sf Z fs).map (processContainerField sf Z))
          "people" = some (processPersonsList sf Z w) := by
        rw [hpeople, applyPersonsStage_get_pk sf Z hpf, hw]
        rfl
      rcases hpers with hnone | ⟨v, hv, ht⟩
      · have hrhs : personsValue fs = w := by
          simp [personsValue, hnone, hw]
        rw [hrhs]
        unfold personsValue
        simp [hget1, hnone, hget2]
      · have hrhs : personsValue fs = w := by
          simp [personsValue, hv, ht, hw]
        rw [hrhs]
        unfold personsValue
        simp [hget1, hv, hget2, ht]

/-- The candidate-key loop observes the same lookups on processed and
unprocessed container fields. -/
lemma tryCandidates_obs (sf : String → Option ℚ) (Z : CoordOffsets)
    (hZ : ∀ nm d, alistGet Z nm = some d → d = (0, 0)) {fs fs2 : List (String × JVal)}
    (ks : List String)
    (hget : ∀ k ∈ ks, alistGet fs2 k = (alistGet fs k).map (processKeypoints sf Z)) :
    lookupObs sf (tryCandidates fs2 ks) = lookupObs sf (tryCandidates fs ks) := by
  induction ks with
  | nil => rfl
  | cons k rest ih =>
    have ih2 := ih (fun k2 hk2 => hget k2 (List.mem_cons_of_mem _ hk2))
    have hk := hget k (List.mem_cons_self _ _)
    simp only [tryCandidates, hk]
    cases hgk : alistGet fs k with
    | none => exact ih2
    | some v =>
      simp only [Option.map_some']
      have hobs := lookupObs_normalise_zero sf Z hZ v
      have hie := isEmpty_obs_congr hobs
      rw [hie]
      cases hne : (normaliseKeypoints v).isEmpty with
      | true => exact ih2
      | false => exact hobs

/-- The first-person lookup observes the same entries before and after an
all-zero offset application. -/
lemma personsLookup_obs (sf : String → Option ℚ) (Z : CoordOffsets)
    (hZ : ∀ nm d, alistGet Z nm = some d → d = (0, 0)) (fs : List (String × JVal)) :
    lookupObs sf (personsLookup ((applyPersonsStage sf Z fs).map (processContainerField sf Z))) =
      lookupObs sf (personsLookup fs) := by
  unfold personsLookup
  rw [personsValue_stage]
  cases hpf : personsFieldName fs with
  | none => rfl
  | some pk =>
    cases hpv : personsValue fs with
    | arr persons =>
      cases persons with
      | nil => rfl
      | cons p0 prest =>
        simp only [processPersonsList, List.map_cons]
        cases p0 with
        | obj pfs =>
          simp only [processPerson]
          exact tryCandidates_obs sf Z hZ candidateKeys
            (fun k hk => containerField_get sf Z pfs k (by simpa using hk))
        | num q => rfl
        | str s2 => rfl
        | bool b => rfl
        | null => rfl
        | arr l2 => rfl
    | num q => rfl
    | str s2 => rfl
    | bool b => rfl
    | null => rfl
    | obj ofs => rfl

/-- The keypoint lookup of a payload observes the same entries before and
after an all-zero offset application. -/
lemma buildLookup_obs_zero (sf : String → Option ℚ) (Z : CoordOffsets)
    (hZ : ∀ nm d, alistGet Z nm = some d → d = (0, 0)) (p : JVal) :
    lookupObs sf (buildKeypointsLookup (apply_keypoint_offsets_to_payload sf p Z)) =
      lookupObs sf (buildKeypointsLookup p) := by
  cases p with
  | obj fs =>
    by_cases hz : Z.isEmpty
    · simp [apply_keypoint_offsets_to_payload, hz]
    · have happly : apply_keypoint_offsets_to_payload sf (.obj fs) Z =
          .obj ((applyPersonsStage sf Z fs).map (processContainerField sf Z)) := by
        simp [apply_keypoint_offsets_to_payload, hz]
      rw [happly]
      have hcand : ∀ k ∈ candidateKeys,
          alistGet ((applyPersonsStage sf Z fs).map (processContainerField sf Z)) k =
            (alistGet fs k).map (processKeypoints sf Z) := by
        intro k hk
        rw [containerField_get sf Z _ k (by simpa using hk)]
        have hne : k ≠ "persons" ∧ k ≠ "people" := by
          fin_cases hk <;> exact ⟨by decide, by decide⟩
        rw [applyPersonsStage_get sf Z fs k hne.1 hne.2]
      have hpl := personsLookup_obs sf Z hZ fs
      have hple := isEmpty_obs_congr hpl
      simp only [buildKeypointsLookup]
      rw [hple]
      cases hpe : (personsLookup fs).isEmpty with
      | true => exact tryCandidates_obs sf Z hZ candidateKeys hcand
      | false => exact hpl
  | num q => rfl
  | str s2 => rfl
  | bool b => rfl
  | null => rfl
  | arr l => rfl

/-- The geometric tail of angle extraction is unchanged by an all-zero
offset application. -/
lemma geomTail_zero (sf : String → Option ℚ) (Z : CoordOffsets)
    (hZ : ∀ nm d, alistGet Z nm = some d → d = (0, 0)) (p : JVal) :
    geomTail sf (apply_keypoint_offsets_to_payload sf p Z) = geomTail sf p := by
  have hobs := buildLookup_obs_zero sf Z hZ p
  simp only [geomTail]
  rw [isEmpty_obs_congr hobs, extractGeomCoords_obs_congr hobs]

/-- The lightGBM direct extraction only reads the three angle fields. -/
lemma extractTripleLGBM_keys_congr {sf : String → Option ℚ}
    {fs1 fs2 : List (String × JVal)}
    (hn : alistGet fs1 "neck" = alistGet fs2 "neck")
    (hb : alistGet fs1 "back" = alistGet fs2 "back")
    (hl : alistGet fs1 "legs" = alistGet fs2 "legs") :
    extractTripleLGBM sf (some (.obj fs1)) = extractTripleLGBM sf (some (.obj fs2)) := by
  simp only [extractTripleLGBM]
  rw [hn, hb, hl]

/-- The executable angle-extraction core of the lightGBM script is
unchanged by an all-zero offset application. -/
lemma getAnglesCoreLGBM_zero (sf : String → Option ℚ) (Z : CoordOffsets)
    (hZ : ∀ nm d, alistGet Z nm = some d → d = (0, 0)) (p : JVal) :
    getAnglesCoreLGBM sf (apply_keypoint_offsets_to_payload sf p Z) =
      getAnglesCoreLGBM sf p := by
  cases p with
  | obj fs =>
    by_cases hz : Z.isEmpty
    · simp [apply_keypoint_offsets_to_payload, hz]
    · have happly : apply_keypoint_offsets_to_payload sf (.obj fs) Z =
          .obj ((applyPersonsStage sf Z fs).map (processContainerField sf Z)) := by
        simp [apply_keypoint_offsets_to_payload, hz]
      have hframe : ∀ k, k ≠ "persons" → k ≠ "people" → candidateKeys.contains k = false →
          alistGet ((applyPersonsStage sf Z fs).map (processContainerField sf Z)) k =
            alistGet fs k := by
        intro k h1 h2 h3
        have hf := apply_offsets_frame sf Z fs k h1 h2 h3
        rw [happly] at hf
        exact hf
      have hadj := hframe "adjusted_angles" (by decide) (by decide) (by decide)
      have hpers := hframe "personalized_angles" (by decide) (by decide) (by decide)
      have hang := hframe "angles" (by decide) (by decide) (by decide)
      have hneck := hframe "neck" (by decide) (by decide) (by decide)
      have hback := hframe "back" (by decide) (by decide) (by decide)
      have hlegs := hframe "legs" (by decide) (by decide) (by decide)
      have htop := @extractTripleLGBM_keys_congr sf _ _ hneck hback hlegs
      have hgeom := geomTail_zero sf Z hZ (.obj fs)
      rw [happly] at hgeom
      rw [happly]
      simp only [getAnglesCoreLGBM]
      rw [hadj, hpers, hang, htop, hgeom]
  | num q => rfl
  | str s2 => rfl
  | bool b => rfl
  | null => rfl
  | arr l => rfl

/-- In a duplicate-free dict every binding is found by lookup. -/
lemma alistGet_self_of_nodup {α : Type} {m : List (String × α)}
    (h : (m.map Prod.fst).Nodup) : ∀ kv ∈ m, alistGet m kv.1 = some kv.2 := by
  induction m with
  | nil => intro kv hkv; cases hkv
  | cons hd rest ih =>
    intro kv hkv
    obtain ⟨k1, v1⟩ := hd
    simp only [List.map_cons, List.nodup_cons] at h
    obtain ⟨hk1, hrest⟩ := h
    cases hkv with
    | head => simp [alistGet]
    | tail _ h2 =>
      have hne : k1 ≠ kv.1 := by
        intro heq
        exact hk1 (heq ▸ List.mem_map_of_mem Prod.fst h2)
      simp only [alistGet, if_neg hne]
      exact ih hrest kv h2

/-- Self-offsets computation: every part maps to the zero delta. -/
lemma compute_offsets_self_aux (m sub : CoordMap)
    (hs : ∀ kv ∈ sub, alistGet m kv.1 = some kv.2) :
    (sub.filterMap fun kv =>
      match alistGet m kv.1 with
      | some pp => some (kv.1, (pp.1 - kv.2.1, pp.2 - kv.2.2))
      | none => none) = sub.map fun kv => (kv.1, ((0 : ℚ), (0 : ℚ))) := by
  induction sub with
  | nil => rfl
  | cons kv rest ih =>
    have hhd := hs kv (List.mem_cons_self _ _)
    have ih2 := ih (fun kv2 hk2 => hs kv2 (List.mem_cons_of_mem _ hk2))
    simp [List.filterMap_cons, hhd, ih2, sub_self]

/-- `compute_keypoint_coordinate_offsets` of a duplicate-free coordinate
map against itself is the all-zero offset map over the same parts. -/
lemma compute_offsets_self (m : CoordMap) (h : (m.map Prod.fst).Nodup) :
    compute_keypoint_coordinate_offsets m m =
      m.map (fun kv => (kv.1, ((0 : ℚ), (0 : ℚ)))) := by
  cases hm : m with
  | nil => rfl
  | cons hd tl =>
    unfold compute_keypoint_coordinate_offsets
    simp only [List.isEmpty_cons, Bool.or_self, Bool.false_eq_true, if_false]
    exact compute_offsets_self_aux _ _ (hm ▸ alistGet_self_of_nodup h)

/-- C8: when the personal reference resolves to the same angles and the
same keypoint coordinates as the baseline, the angle offsets are all
zero, every keypoint coordinate offset is (0, 0), and the adjusted
angles extracted after applying the all-zero coordinate offsets equal
the raw angles of every capture. -/
theorem C8_identity_calibration :
    ∀ (sf : String → Option ℚ) (t : AngleTriple) (m : CoordMap) (p : JVal)
      (Z : CoordOffsets),
      resolve_reference_angles (some t) (some t) = some ⟨t, t, ⟨0, 0, 0⟩⟩ ∧
      ((m.map Prod.fst).Nodup →
        compute_keypoint_coordinate_offsets m m =
          m.map (fun kv => (kv.1, ((0 : ℚ), (0 : ℚ))))) ∧
      ((∀ nm d, (nm, d) ∈ Z → d = (0, 0)) →
        get_angles_from_payload_lgbm sf (apply_keypoint_offsets_to_payload sf p Z) =
          get_angles_from_payload_lgbm sf p) := by
  intro sf t m p Z
  refine ⟨?_, fun h => compute_offsets_self m h, fun hmem => ?_⟩
  · simp [resolve_reference_angles]
  · have hZ : ∀ nm d, alistGet Z nm = some d → d = (0, 0) := fun nm d h =>
      hmem nm d (alistGet_mem h)
    unfold get_angles_from_payload_lgbm
    rw [getAnglesCoreLGBM_zero sf Z hZ p]

/-- Witness for C8: a concrete all-zero offset map leaves the extracted
angles of a concrete capture unchanged, and a concrete coordinate map
against itself yields the zero offset. -/
theorem C8_witness :
    get_angles_from_payload_lgbm sfNone
        (apply_keypoint_offsets_to_payload sfNone
          (.obj [("keypoints", .obj [("left_ear", .obj [("x", .num 1), ("y", .num 2)])])])
          [("left_ear", (0, 0))]) =
      get_angles_from_payload_lgbm sfNone
        (.obj [("keypoints", .obj [("left_ear", .obj [("x", .num 1), ("y", .num 2)])])]) ∧
    compute_keypoint_coordinate_offsets [("left_ear", ((1 : ℚ), (2 : ℚ)))]
        [("left_ear", ((1 : ℚ), (2 : ℚ)))] = [("left_ear", (0, 0))] := by
  have h := C8_identity_calibration sfNone ⟨1, 2, 3⟩ [("left_ear", ((1 : ℚ), (2 : ℚ)))]
    (.obj [("keypoints", .obj [("left_ear", .obj [("x", .num 1), ("y", .num 2)])])])
    [("left_ear", (0, 0))]
  constructor
  · exact h.2.2 (by
      intro nm d hmem
      simp at hmem
      exact hmem.2)
  · exact (h.2.1 (by simp)).trans (by simp)

end Posture









